import Mathlib

/-!
# EmpowerGIS core verification

A shallow embedding of the EmpowerGIS API core: the session-authentication and
token-rotation protocol (`apps/api/src/routes/auth.ts`, the `requireAuth`
middleware, and the `user_sessions` schema from the initial migration) and the
fuzzy property-search ranking engine (`GET /properties/search`,
`GET /properties/by-parcel-key/:parcelKey`).

SQL rows become Lean structures, the database becomes lists of rows, `NOW()`
becomes an explicit `now : Nat` argument, and each route handler becomes a pure
function from the request and the database state to a response and a new state.
SQL `LIKE`/`ILIKE` is an executable matcher over character lists; PostGIS
geometry is reduced to the point-on-surface each query actually consumes, with
`ST_DWithin`/`ST_Distance` as squared-distance comparisons over fixed-point
integer coordinates.
-/

namespace EmpowerGIS

/-! ## Characters and SQL LIKE matching -/

/-- ASCII `[A-Za-z0-9]`, the class kept by `REGEXP_REPLACE(x, '[^A-Za-z0-9]+', ' ', 'g')`. -/
def isAsciiAlnum (c : Char) : Bool :=
  ( 'A' ≤ c && c ≤ 'Z') || ( 'a' ≤ c && c ≤ 'z') || ( '0' ≤ c && c ≤ '9')

/-- ASCII `[a-z0-9]`, the class kept by the JS regex `[^a-z0-9]+` (applied after lowercasing). -/
def isLowerAlnum (c : Char) : Bool :=
  ( 'a' ≤ c && c ≤ 'z') || ( '0' ≤ c && c ≤ '9')

/-- ASCII lowercasing, as performed by SQL `LOWER` / JS `toLowerCase` on ASCII input. -/
def lowerChar (c : Char) : Char :=
  if 'A' ≤ c && c ≤ 'Z' then Char.ofNat (c.toNat + 32) else c

def lowerChars (l : List Char) : List Char := l.map lowerChar

/-- ASCII uppercasing, as performed by SQL `UPPER` on ASCII input. -/
def upperChar (c : Char) : Char :=
  if 'a' ≤ c && c ≤ 'z' then Char.ofNat (c.toNat - 32) else c

def sqlUpper (s : String) : String := String.mk (s.data.map upperChar)

/-- SQL `LIKE` pattern matching with `%` (any run) and `_` (any one char),
fuelled so that the kernel can evaluate it on concrete inputs; the fuel is
always chosen large enough (see `sqlLike`). -/
def likeMatchF : Nat → List Char → List Char → Bool
  | 0, _, _ => false
  | _ + 1, [], s => s.isEmpty
  | fuel + 1, c :: ps, s =>
    if c == '%' then
      likeMatchF fuel ps s ||
        (match s with
         | [] => false
         | _ :: s2 => likeMatchF fuel (c :: ps) s2)
    else
      match s with
      | [] => false
      | d :: s2 => (c == '_' || c == d) && likeMatchF fuel ps s2

/-- `sqlLike s pat` is SQL `s LIKE pat`. -/
def sqlLike (s pat : String) : Bool :=
  likeMatchF (2 * (pat.data.length + s.data.length) + 1) pat.data s.data

/-- `sqlIlike s pat` is SQL `s ILIKE pat` (case-insensitive `LIKE`). -/
def sqlIlike (s pat : String) : Bool :=
  likeMatchF (2 * (pat.data.length + s.data.length) + 1)
    (lowerChars pat.data) (lowerChars s.data)

/-- `ILIKE` on a nullable column: SQL `NULL ILIKE pat` is not true. -/
def optIlike (s : Option String) (pat : String) : Bool :=
  match s with
  | none => false
  | some v => sqlIlike v pat

/-! ## Normalization

The JS route computes
`rawQuery.toLowerCase().replace(/[^a-z0-9]+/g, " ").trim().replace(/\s+/g, " ")`;
the SQL side computes `LOWER(REGEXP_REPLACE(x, '[^A-Za-z0-9]+', ' ', 'g'))`
(no trim). Both are built from a run-collapsing replacement. -/

/-- Auxiliary for `replaceRuns`: the flag records whether the previous
character was part of a dropped run (in which case no further space is
emitted until a kept character is seen). -/
def replaceRunsAux (keep : Char → Bool) : Bool → List Char → List Char
  | _, [] => []
  | inRun, c :: cs =>
    if keep c then c :: replaceRunsAux keep false cs
    else if inRun then replaceRunsAux keep true cs
    else ' ' :: replaceRunsAux keep true cs

/-- Replace every maximal run of characters failing `keep` by one space
(`REGEXP_REPLACE(x, '[^…]+', ' ', 'g')` / JS `replace(/[^…]+/g, " ")`). -/
def replaceRuns (keep : Char → Bool) (l : List Char) : List Char :=
  replaceRunsAux keep false l

def trimLeadSpaces (l : List Char) : List Char := l.dropWhile (fun c => c == ' ')

def trimTrailSpaces (l : List Char) : List Char :=
  (trimLeadSpaces l.reverse).reverse

/-- JS `String.trim` on strings whose only whitespace is `' '`
(the only whitespace surviving the run replacement). -/
def trimSpaces (l : List Char) : List Char := trimTrailSpaces (trimLeadSpaces l)

/-- JS/zod `trim()`: drop leading and trailing whitespace (char-level;
`String.trim` itself is not kernel-reducible). -/
def jsTrim (s : String) : String :=
  String.mk (((s.data.dropWhile Char.isWhitespace).reverse.dropWhile Char.isWhitespace).reverse)

/-- Shared core of both normalizations: keep `[A-Za-z0-9]` lowercased, turn
every other maximal run into one space. For each character `c`,
`isLowerAlnum (lowerChar c) = isAsciiAlnum c`, so lowercasing before the
replacement (the JS order) and after it (the SQL order) coincide, and both
equal this fused traversal. -/
def collapseAlnum : Bool → List Char → List Char
  | _, [] => []
  | inRun, c :: cs =>
    if isAsciiAlnum c then lowerChar c :: collapseAlnum false cs
    else if inRun then collapseAlnum true cs
    else ' ' :: collapseAlnum true cs

/-- `LOWER(REGEXP_REPLACE(COALESCE(x, ''), '[^A-Za-z0-9]+', ' ', 'g'))`:
the normalization applied in SQL to addresses, owners and parcel keys
(no trimming). -/
def sqlNormalize (s : String) : String :=
  String.mk (collapseAlnum false s.data)

/-- `q.toLowerCase().replace(/[^a-z0-9]+/g, " ").trim().replace(/\s+/g, " ")`:
the `normalizedQuery` computed in the search route. -/
def jsNormalize (s : String) : String :=
  String.mk (replaceRuns (fun c => c != ' ') (trimSpaces (collapseAlnum false s.data)))

/-! ## Search query patterns (part_005, `GET /properties/search`, lines 362–408) -/

/-- The stop-word set stripped from query tokens before loose token matching. -/
def stopWords : List String :=
  ["st", "street", "rd", "road", "dr", "drive", "ave", "avenue", "blvd",
   "boulevard", "ln", "lane", "ct", "court", "cir", "circle", "trl", "trail",
   "austin", "tx", "texas", "apt", "unit", "suite", "ste"]

/-- JS `/^\d+[a-z]?$/i`: a house-number-looking token (digits, optional single letter). -/
def isHouseNumberToken (t : String) : Bool :=
  let ds := t.data.takeWhile Char.isDigit
  let rest := t.data.dropWhile Char.isDigit
  !ds.isEmpty &&
    (rest.isEmpty ||
      (rest.length == 1 &&
        (( 'a' ≤ rest.headD ' ' && rest.headD ' ' ≤ 'z') ||
         ( 'A' ≤ rest.headD ' ' && rest.headD ' ' ≤ 'Z'))))

/-- JS `split(" ")`: split at every single space, keeping empty pieces. -/
def splitOnSpaceAux (acc : List Char) : List Char → List (List Char)
  | [] => [acc.reverse]
  | c :: cs =>
    if c == ' ' then acc.reverse :: splitOnSpaceAux [] cs
    else splitOnSpaceAux (c :: acc) cs

def splitOnSpace (l : List Char) : List (List Char) := splitOnSpaceAux [] l

/-- `normalizedQuery.split(" ").map(t => t.trim()).filter(t => t.length >= 2)`.
The tokens contain no whitespace other than `' '`, so JS `trim` is
`trimSpaces`. -/
def normalizedTokens (nq : String) : List String :=
  (((splitOnSpace nq.data).map (fun t => String.mk (trimSpaces t))).filter
    (fun t => 2 ≤ t.length))

/-- `normalizedTokens.filter(t => !stopWords.has(t))`. -/
def primaryTokens (nq : String) : List String :=
  (normalizedTokens nq).filter (fun t => !(stopWords.contains t))

/-- `primaryTokens.length > 0 ? primaryTokens : normalizedTokens`. -/
def tokenPatternSeed (nq : String) : List String :=
  if (primaryTokens nq).length > 0 then primaryTokens nq else normalizedTokens nq

/-- `tokenPatternSeed.filter((token, index) => !(index === 0 && houseNumber))`. -/
def streetOnlyTokenSeed (nq : String) : List String :=
  match tokenPatternSeed nq with
  | [] => []
  | t :: ts => if isHouseNumberToken t then ts else t :: ts

/-- The eight SQL parameters fed to the search query (the result limit `$5` aside):
`$1` wildcard, `$2` prefix, `$3` normalizedWildcard, `$4` tokenWildcard,
`$6` normalizedQuery, `$7` normalizedPrefix, `$8` streetOnlyWildcard. -/
structure QueryPats where
  rawQuery : String
  normalizedQuery : String
  patRawSub : String
  patRawPre : String
  patNormSub : String
  patTokenSub : String
  patNormPre : String
  patStreetSub : String
  deriving Repr, DecidableEq

/-- Assemble the query patterns exactly as the route does. -/
def mkQueryPats (q : String) : QueryPats :=
  let rawQuery := jsTrim q
  let nq := jsNormalize rawQuery
  let seed := tokenPatternSeed nq
  let streetSeed := streetOnlyTokenSeed nq
  let normalizedWildcard := "%" ++ nq ++ "%"
  { rawQuery := rawQuery
    normalizedQuery := nq
    patRawSub := "%" ++ rawQuery ++ "%"
    patRawPre := rawQuery ++ "%"
    patNormSub := normalizedWildcard
    patTokenSub :=
      if seed.length > 0 then "%" ++ String.intercalate "%" (seed.take 5) ++ "%"
      else normalizedWildcard
    patNormPre := nq ++ "%"
    patStreetSub :=
      if streetSeed.length > 0 then "%" ++ String.intercalate "%" (streetSeed.take 5) ++ "%"
      else normalizedWildcard }

/-! ## Auth data model

Rows of `users` and `user_sessions` from the initial migration, with the
columns the auth routes read or write. Timestamps are `Nat`; `NOW()` is an
explicit argument. -/

/-- A row of `users` (the columns consumed by the auth routes). -/
structure UserRow where
  id : Nat
  username : String
  password_hash : String
  is_active : Bool
  last_login_at : Option Nat := none
  last_failed_login_at : Option Nat := none
  deriving Repr, DecidableEq

/-- A row of `user_sessions`. -/
structure SessionRow where
  id : String
  user_id : Nat
  refresh_token_hash : String
  last_seen_at : Nat
  expires_at : Nat
  revoked_at : Option Nat := none
  revoked_reason : Option String := none
  ip_address : Option String := none
  user_agent : Option String := none
  device_fingerprint : Option String := none
  deriving Repr, DecidableEq

/-- An activity-log entry (`user_activity_logs`): event type and optional user. -/
structure ActivityRow where
  event_type : String
  log_user_id : Option Nat
  deriving Repr, DecidableEq

/-- The relational state the auth routes touch. -/
structure Db where
  users : List UserRow
  sessions : List SessionRow
  activity : List ActivityRow
  deriving Repr, DecidableEq

/-- `logUserActivity`: appends a row, never fails. -/
def logUserActivity (db : Db) (eventType : String) (userId : Option Nat) : Db :=
  { db with activity := db.activity ++ [⟨eventType, userId⟩] }

/-- `hashToken` (`lib/crypto.ts`): SHA-256 hex digest, modelled as an injective tag. -/
def hashToken (value : String) : String := "sha256:" ++ value

/-- `bcrypt.hash(password, rounds)`, modelled as an injective tag. -/
def bcryptHash (password : String) : String := "bcrypt:" ++ password

/-- `bcrypt.compare(password, hash)`. -/
def bcryptCompare (password hash : String) : Bool := bcryptHash password == hash

/-- `users.username` is `CITEXT`: equality is case-insensitive. -/
def citextEq (a b : String) : Bool :=
  lowerChars a.data == lowerChars b.data

/-- The claim set of a signed access token (`issueAccessToken`):
`{ sub: String(userId), sid: sessionId, username }` plus the JWT expiry. -/
structure AccessToken where
  sub : Nat
  sid : String
  username : String
  exp : Nat
  deriving Repr, DecidableEq

/-- Environment knobs used by the handlers (`env.REFRESH_TOKEN_TTL_DAYS`,
`env.JWT_ACCESS_TTL_MINUTES`), as abstract durations. -/
structure AuthEnv where
  refreshTtl : Nat
  accessTtl : Nat
  deriving Repr, DecidableEq

/-- Responses produced by the auth routes and middleware. -/
inductive AuthResp where
  | err (status : Nat) (message : String)
  | loginOk (accessToken : AccessToken) (refreshToken : String)
      (sessionId : String) (sessionExpiresAt : Nat) (userId : Nat) (username : String)
  | refreshOk (accessToken : AccessToken) (refreshToken : String)
  | authOk (userId : Nat) (sessionId : String) (username : String)
  deriving Repr, DecidableEq

/-- The `INNER JOIN users u ON u.id = s.user_id … AND u.is_active = TRUE`
condition: the session's user exists and is active. -/
def userActive (db : Db) (userId : Nat) : Bool :=
  match db.users.find? (fun u => u.id == userId) with
  | some u => u.is_active
  | none => false

/-- The row transformation of the login transaction's `UPDATE user_sessions
SET revoked_at = NOW(), revoked_reason = 'replaced_by_new_login' WHERE
user_id = $1 AND revoked_at IS NULL`. -/
def revokeForLogin (now : Nat) (uid : Nat) (s : SessionRow) : SessionRow :=
  if s.user_id == uid && s.revoked_at == none then
    { s with revoked_at := some now, revoked_reason := some "replaced_by_new_login" }
  else s

/-- `POST /auth/login` (auth.ts lines 125–257). The fresh session id and
refresh token (`gen_random_uuid()`, `generateRefreshToken()`) are inputs. -/
def login (env : AuthEnv) (db : Db) (now : Nat) (username password : String)
    (deviceFingerprint ipAddress userAgent : Option String)
    (newSessionId newRefreshToken : String) : AuthResp × Db :=
  let usernameT := jsTrim username
  if usernameT.length < 1 || password.length < 1 then
    (.err 400 "Invalid login payload", db)
  else
    match db.users.find? (fun u => citextEq u.username usernameT) with
    | none =>
      (.err 401 "Invalid credentials", logUserActivity db "login_failed" none)
    | some user =>
      if !user.is_active then
        (.err 403 "Account is inactive", logUserActivity db "login_failed" (some user.id))
      else if !bcryptCompare password user.password_hash then
        let db1 : Db :=
          { db with users := db.users.map (fun u =>
              if u.id == user.id then { u with last_failed_login_at := some now } else u) }
        (.err 401 "Invalid credentials", logUserActivity db1 "login_failed" (some user.id))
      else
        let refreshTokenHash := hashToken newRefreshToken
        let revoked := db.sessions.map (revokeForLogin now user.id)
        let newSession : SessionRow :=
          { id := newSessionId
            user_id := user.id
            refresh_token_hash := refreshTokenHash
            last_seen_at := now
            expires_at := now + env.refreshTtl
            ip_address := ipAddress
            user_agent := userAgent
            device_fingerprint := deviceFingerprint }
        let users2 := db.users.map (fun u =>
          if u.id == user.id then
            { u with last_login_at := some now, last_failed_login_at := none }
          else u)
        let db2 : Db :=
          logUserActivity
            { db with users := users2, sessions := revoked ++ [newSession] }
            "login_success" (some user.id)
        (.loginOk
            { sub := user.id, sid := newSessionId, username := user.username,
              exp := now + env.accessTtl }
            newRefreshToken newSessionId (now + env.refreshTtl) user.id user.username,
          db2)

/-- The `WHERE` clause of the refresh lookup: hash match, unrevoked,
unexpired, active user. -/
def refreshLookupHit (db : Db) (now : Nat) (incomingHash : String) (s : SessionRow) : Bool :=
  s.refresh_token_hash == incomingHash && s.revoked_at == none &&
    now < s.expires_at && userActive db s.user_id

/-- `POST /auth/refresh` (auth.ts lines 259–326). The rotated replacement
token is an input. -/
def refresh (env : AuthEnv) (db : Db) (now : Nat)
    (refreshToken newRefreshToken : String) : AuthResp × Db :=
  if refreshToken.length < 20 then
    (.err 400 "Invalid refresh payload", db)
  else
    let incomingHash := hashToken refreshToken
    let newRefreshHash := hashToken newRefreshToken
    match (db.sessions.filter (refreshLookupHit db now incomingHash)).head? with
    | none => (.err 401 "Refresh token is invalid or expired", db)
    | some s =>
      let uname :=
        match db.users.find? (fun u => u.id == s.user_id) with
        | some u => u.username
        | none => ""
      let sessions2 := db.sessions.map (fun r =>
        if r.id == s.id then
          { r with refresh_token_hash := newRefreshHash, last_seen_at := now }
        else r)
      (.refreshOk
          { sub := s.user_id, sid := s.id, username := uname, exp := now + env.accessTtl }
          newRefreshToken,
        { db with sessions := sessions2 })

/-- The possible outcomes of header extraction and `jwt.verify` for the
middleware: no bearer header, a token whose signature or expiry fails, or a
verified unexpired payload. -/
inductive TokenCheck where
  | missingHeader
  | invalidOrExpired
  | verified (payload : AccessToken)
  deriving Repr, DecidableEq

/-- The session-liveness condition of `requireAuth` (part_006 lines 49–62):
row id and user match the claims, unrevoked, unexpired, active user. -/
def sessionLive (db : Db) (now : Nat) (p : AccessToken) (s : SessionRow) : Bool :=
  s.id == p.sid && s.user_id == p.sub && s.revoked_at == none &&
    now < s.expires_at && userActive db s.user_id

/-- `requireAuth` middleware (part_006 lines 22–77). -/
def requireAuth (db : Db) (now : Nat) (tc : TokenCheck) : AuthResp × Db :=
  match tc with
  | .missingHeader => (.err 401 "Missing bearer token", db)
  | .invalidOrExpired => (.err 401 "Invalid or expired token", db)
  | .verified p =>
    if p.sid = "" then (.err 401 "Invalid token payload", db)
    else
      match db.sessions.find? (sessionLive db now p) with
      | none => (.err 401 "Session is no longer active", db)
      | some _ =>
        let sessions2 := db.sessions.map (fun r =>
          if r.id == p.sid then { r with last_seen_at := now } else r)
        (.authOk p.sub p.sid p.username, { db with sessions := sessions2 })

/-- The partial unique index `ux_user_sessions_one_active_per_user`
(initial migration): no two distinct rows share a `user_id` while both have
`revoked_at IS NULL`. -/
def uxOneActivePerUser (sessions : List SessionRow) : Prop :=
  sessions.Pairwise (fun s t =>
    s.revoked_at = none → t.revoked_at = none → s.user_id ≠ t.user_id)

/-! ## GIS data model

Parcel and address-point rows. The search SQL consumes parcel geometry only
through `ST_PointOnSurface` and through distance predicates against point
geometries, so a parcel's geometry is modelled by its representative point,
with `ST_DWithin`/`ST_Distance` as squared-distance comparisons over
fixed-point coordinates (`Int`, units of `10 ^ (-7)` degrees). -/

structure Pt where
  x : Int
  y : Int
  deriving Repr, DecidableEq

def distSq (a b : Pt) : Int := (a.x - b.x) * (a.x - b.x) + (a.y - b.y) * (a.y - b.y)

/-- `ST_DWithin(a, b, tol)` on point geometries (squared comparison). -/
def stDWithin (a b : Pt) (tol : Int) : Bool := distSq a b ≤ tol * tol

/-- The backfill tolerance `0.0012` degrees, in the fixed-point coordinate
unit of `10 ^ (-7)` degrees. -/
def backfillTol : Int := 12000

/-- A row of `parcels` (the columns the search and lookup routes read).
`parcel_key` is `TEXT NOT NULL UNIQUE` in the schema. -/
structure Parcel where
  parcel_key : String
  situs_address : Option String
  owner_name : Option String
  county_name : Option String
  acreage : Option Int
  market_value : Option Int
  zoning_code : Option String
  pointOnSurface : Pt
  deriving Repr, DecidableEq

/-- A row of `address_points`. `normalized_address` is a stored column,
maintained (migration 0005) as the SQL normalization of `address_label`. -/
structure AddressPoint where
  apId : Nat
  address_label : String
  normalized_address : String
  county_name : Option String
  geom : Pt
  deriving Repr, DecidableEq

/-- `LOWER(REGEXP_REPLACE(COALESCE(p.situs_address, ''), …))`. -/
def pNormAddress (p : Parcel) : String := sqlNormalize (p.situs_address.getD "")

/-- `LOWER(REGEXP_REPLACE(COALESCE(p.owner_name, ''), …))`. -/
def pNormOwner (p : Parcel) : String := sqlNormalize (p.owner_name.getD "")

/-- `LOWER(REGEXP_REPLACE(p.parcel_key, …))`. -/
def pNormKey (p : Parcel) : String := sqlNormalize p.parcel_key

/-- `NULLIF(s, '')`. -/
def nullIfEmpty (s : String) : Option String := if s = "" then none else some s

/-- `COALESCE(NULLIF(z, ''), 'Not mapped')`. -/
def coalesceZoning (z : Option String) : String :=
  ((z.bind nullIfEmpty).getD "Not mapped")

/-! ## Generic SQL pieces: LIMIT, DISTINCT ON, ROW_NUMBER () = 1

`LIMIT` without `ORDER BY` and tie-breaking inside `DISTINCT ON` /
`ROW_NUMBER` follow list order (a deterministic refinement of the
unspecified Postgres choice). -/

/-- First occurrence of each value, in order of first appearance. -/
def dedupFirst {κ : Type} [DecidableEq κ] : List κ → List κ
  | [] => []
  | k :: ks => k :: (dedupFirst ks).filter (fun j => j ≠ k)

/-- Fold keeping the earliest element that is minimal for the strict
comparator `lt` (later elements replace the current best only when strictly
better). -/
def best1 {α : Type} (lt : α → α → Bool) (cur : α) : List α → α
  | [] => cur
  | x :: xs => best1 lt (if lt x cur then x else cur) xs

/-- The earliest `lt`-minimal element of a list, if any: the row
`ROW_NUMBER () OVER (… ORDER BY …) = 1` keeps, or the first row of an
`ORDER BY … LIMIT 1`. -/
def pickFirstMin {α : Type} (lt : α → α → Bool) : List α → Option α
  | [] => none
  | x :: xs => some (best1 lt x xs)

/-- `DISTINCT ON (key) ORDER BY key, …` / per-key `ROW_NUMBER () = 1`:
for each distinct key (in first-appearance order) keep the earliest
`lt`-minimal row of that key's group. -/
def selectPerKey {α κ : Type} [DecidableEq κ] (key : α → κ) (lt : α → α → Bool)
    (l : List α) : List α :=
  (dedupFirst (l.map key)).filterMap
    (fun k => pickFirstMin lt (l.filter (fun r => key r = k)))

/-- Stable insertion: `x` goes before the first element not strictly below it. -/
def insertSorted {α : Type} (lt : α → α → Bool) (x : α) : List α → List α
  | [] => [x]
  | y :: ys => if lt y x then y :: insertSorted lt x ys else x :: y :: ys

/-- Stable insertion sort by a strict comparator (`ORDER BY`). -/
def sortByLt {α : Type} (lt : α → α → Bool) : List α → List α
  | [] => []
  | x :: xs => insertSorted lt x (sortByLt lt xs)

/-! ## The search pipeline (part_005, `GET /properties/search`, lines 410–728) -/

/-- Lexicographic codepoint order on text (`parcel_key ASC`;
`String.decidableLT` is not kernel-reducible). -/
def strLtChars : List Char → List Char → Bool
  | [], [] => false
  | [], _ :: _ => true
  | _ :: _, [] => false
  | a :: as, b :: bs => if a == b then strLtChars as bs else decide (a < b)

def strLt (x y : String) : Bool := strLtChars x.data y.data

/-- `market_value DESC NULLS LAST` as a strict comparator. -/
def marketDescLt (x y : Option Int) : Bool :=
  match x, y with
  | some a, some b => decide (b < a)
  | some _, none => true
  | none, _ => false

/-- `parcel_seed`: six `UNION ALL` branches over `parcels`, each with its own
match condition and `LIMIT`. -/
def parcelSeed (ps : List Parcel) (qp : QueryPats) : List Parcel :=
  (ps.filter (fun p => pNormAddress p == qp.normalizedQuery)).take 120 ++
  (ps.filter (fun p => sqlLike (pNormAddress p) qp.patNormPre)).take 220 ++
  (ps.filter (fun p =>
    sqlIlike (pNormAddress p) qp.patNormSub ||
    sqlIlike (pNormAddress p) qp.patTokenSub ||
    sqlIlike (pNormAddress p) qp.patStreetSub)).take 720 ++
  (ps.filter (fun p => sqlIlike (pNormOwner p) qp.patNormSub)).take 360 ++
  (ps.filter (fun p => sqlLike (pNormKey p) qp.patNormPre)).take 220 ++
  (ps.filter (fun p => sqlIlike (pNormKey p) qp.patNormSub)).take 220

/-- `parcel_prepared`: `DISTINCT ON (parcel_key) ORDER BY parcel_key,
market_value DESC NULLS LAST`. -/
def parcelPrepared (ps : List Parcel) (qp : QueryPats) : List Parcel :=
  selectPerKey Parcel.parcel_key
    (fun p q => marketDescLt p.market_value q.market_value)
    (parcelSeed ps qp)

/-- The `relevance_bucket` `CASE` of `parcel_ranked` (lines 560–571). -/
def parcelBucket (qp : QueryPats) (p : Parcel) : Nat :=
  if pNormAddress p == qp.normalizedQuery then 0
  else if sqlLike (pNormAddress p) qp.patNormPre then 1
  else if sqlLike (pNormKey p) qp.patNormPre then 2
  else if optIlike p.situs_address qp.patRawPre then 3
  else if sqlIlike (pNormAddress p) qp.patNormSub then 4
  else if sqlIlike (pNormAddress p) qp.patStreetSub then 5
  else if sqlIlike (pNormAddress p) qp.patTokenSub then 6
  else if sqlIlike (pNormKey p) qp.patNormSub then 7
  else if optIlike p.owner_name qp.patRawPre || sqlIlike (pNormOwner p) qp.patNormSub then 8
  else 9

/-- The `relevance_score` sum of `parcel_ranked` (lines 572–580). -/
def parcelScore (qp : QueryPats) (p : Parcel) : Nat :=
  (if pNormAddress p == qp.normalizedQuery then 10 else 0) +
  (if sqlLike (pNormAddress p) qp.patNormPre then 7 else 0) +
  (if sqlIlike (pNormAddress p) qp.patNormSub then 4 else 0) +
  (if sqlIlike (pNormAddress p) qp.patStreetSub then 3 else 0) +
  (if sqlIlike (pNormAddress p) qp.patTokenSub then 3 else 0) +
  (if sqlIlike (pNormKey p) qp.patNormSub then 2 else 0) +
  (if sqlIlike (pNormOwner p) qp.patNormSub then 1 else 0)

/-- A row of the `combined` CTE: the ranked result columns plus the
bucket/score/source/dedupe machinery. -/
structure RankedRow where
  parcel_key : String
  situs_address : Option String
  owner_name : Option String
  county_name : Option String
  acreage : Option Int
  market_value : Option Int
  zoning_code : String
  longitude : Int
  latitude : Int
  dedupe_key : String
  source_rank : Nat
  relevance_bucket : Nat
  relevance_score : Nat
  deriving Repr, DecidableEq

/-- `parcel_ranked`: one ranked row per prepared parcel (`source_rank 0`,
`dedupe_key = parcel_key`). -/
def rankParcel (qp : QueryPats) (p : Parcel) : RankedRow :=
  { parcel_key := p.parcel_key
    situs_address := p.situs_address
    owner_name := p.owner_name
    county_name := p.county_name
    acreage := p.acreage
    market_value := p.market_value
    zoning_code := coalesceZoning p.zoning_code
    longitude := p.pointOnSurface.x
    latitude := p.pointOnSurface.y
    dedupe_key := p.parcel_key
    source_rank := 0
    relevance_bucket := parcelBucket qp p
    relevance_score := parcelScore qp p }

/-- `address_seed`: three `UNION ALL` branches over `address_points`. -/
def addressSeed (aps : List AddressPoint) (qp : QueryPats) : List AddressPoint :=
  (aps.filter (fun a => a.normalized_address == qp.normalizedQuery)).take 120 ++
  (aps.filter (fun a => sqlLike a.normalized_address qp.patNormPre)).take 220 ++
  (aps.filter (fun a =>
    sqlIlike a.normalized_address qp.patNormSub ||
    sqlIlike a.normalized_address qp.patTokenSub ||
    sqlIlike a.normalized_address qp.patStreetSub)).take 900

/-- `address_candidates`: `DISTINCT ON (normalized_address,
COALESCE(county_name, ''), ST_X(geom), ST_Y(geom))`. -/
def addressCandidates (aps : List AddressPoint) (qp : QueryPats) : List AddressPoint :=
  selectPerKey
    (fun a => (a.normalized_address, a.county_name.getD "", a.geom.x, a.geom.y))
    (fun _ _ => false)
    (addressSeed aps qp)

/-- The `LEFT JOIN LATERAL` backfill: the nearest parcel within `0.0012`
of the address point, if any. -/
def backfillParcel (ps : List Parcel) (a : AddressPoint) : Option Parcel :=
  pickFirstMin
    (fun p q => distSq p.pointOnSurface a.geom < distSq q.pointOnSurface a.geom)
    (ps.filter (fun p => stDWithin p.pointOnSurface a.geom backfillTol))

/-- The `relevance_bucket` `CASE` of `address_ranked` (lines 655–663). -/
def addressBucket (qp : QueryPats) (a : AddressPoint) : Nat :=
  if a.normalized_address == qp.normalizedQuery then 0
  else if sqlLike a.normalized_address qp.patNormPre then 1
  else if sqlIlike a.address_label qp.patRawPre then 2
  else if sqlIlike a.normalized_address qp.patNormSub then 3
  else if sqlIlike a.normalized_address qp.patStreetSub then 4
  else if sqlIlike a.normalized_address qp.patTokenSub then 5
  else 6

/-- The `relevance_score` sum of `address_ranked` (lines 664–670). -/
def addressScore (qp : QueryPats) (a : AddressPoint) : Nat :=
  (if a.normalized_address == qp.normalizedQuery then 10 else 0) +
  (if sqlLike a.normalized_address qp.patNormPre then 7 else 0) +
  (if sqlIlike a.normalized_address qp.patNormSub then 4 else 0) +
  (if sqlIlike a.normalized_address qp.patStreetSub then 3 else 0) +
  (if sqlIlike a.normalized_address qp.patTokenSub then 2 else 0)

/-- `address_ranked`: one ranked row per address candidate (`source_rank 1`),
with parcel attributes backfilled from the nearest parcel within tolerance
and the dedupe key `COALESCE(p.parcel_key, CONCAT('ADDR-', id))`. -/
def rankAddress (qp : QueryPats) (ps : List Parcel) (a : AddressPoint) : RankedRow :=
  let pb := backfillParcel ps a
  let key :=
    match pb with
    | some p => p.parcel_key
    | none => "ADDR-" ++ toString a.apId
  { parcel_key := key
    situs_address := some
      (((nullIfEmpty a.address_label).orElse
          (fun _ => (pb.bind Parcel.situs_address).bind nullIfEmpty)).getD
        "Address unavailable")
    owner_name := some (((pb.bind Parcel.owner_name).bind nullIfEmpty).getD "Unknown")
    county_name := some
      ((((pb.bind Parcel.county_name).bind nullIfEmpty).orElse
          (fun _ => a.county_name.bind nullIfEmpty)).getD "Unknown")
    acreage := pb.bind Parcel.acreage
    market_value := pb.bind Parcel.market_value
    zoning_code := coalesceZoning (pb.bind Parcel.zoning_code)
    longitude := a.geom.x
    latitude := a.geom.y
    dedupe_key := key
    source_rank := 1
    relevance_bucket := addressBucket qp a
    relevance_score := addressScore qp a }

/-- The five-part order used both inside `ROW_NUMBER` and in the final
`ORDER BY`: `relevance_bucket ASC, relevance_score DESC, source_rank ASC,
market_value DESC NULLS LAST, parcel_key ASC`, as a strict comparator. -/
def rowOrdLt (x y : RankedRow) : Bool :=
  if x.relevance_bucket ≠ y.relevance_bucket then
    decide (x.relevance_bucket < y.relevance_bucket)
  else if x.relevance_score ≠ y.relevance_score then
    decide (y.relevance_score < x.relevance_score)
  else if x.source_rank ≠ y.source_rank then
    decide (x.source_rank < y.source_rank)
  else if x.market_value ≠ y.market_value then
    marketDescLt x.market_value y.market_value
  else
    strLt x.parcel_key y.parcel_key

/-- `combined`: `parcel_ranked UNION ALL address_ranked`. -/
def combinedRows (ps : List Parcel) (aps : List AddressPoint) (qp : QueryPats) :
    List RankedRow :=
  (parcelPrepared ps qp).map (rankParcel qp) ++
    (addressCandidates aps qp).map (rankAddress qp ps)

/-- `deduped … WHERE dedupe_rank = 1`: per `dedupe_key`, the earliest row
minimal for the five-part order. -/
def dedupeRows (lt : RankedRow → RankedRow → Bool) (rows : List RankedRow) :
    List RankedRow :=
  selectPerKey RankedRow.dedupe_key lt rows

/-- The search pipeline: seed, rank, merge, dedupe, order, truncate.
Returns the surviving ranked rows (the route then projects away the
bucket/score/source columns). -/
def searchRanked (ps : List Parcel) (aps : List AddressPoint) (q : String)
    (limit : Nat) : List RankedRow :=
  let qp := mkQueryPats q
  (sortByLt rowOrdLt (dedupeRows rowOrdLt (combinedRows ps aps qp))).take limit

/-! ## `GET /properties/by-parcel-key/:parcelKey` (part_005 lines 237–345) -/

/-- The lookup `WHERE UPPER(p.parcel_key) = UPPER($1) LIMIT 1`. Everything
else in the route's response is computed from the returned row (never from
the input key), so this row determines the response. -/
def byParcelKeyLookup (ps : List Parcel) (parcelKey : String) : Option Parcel :=
  ps.find? (fun p => sqlUpper p.parcel_key == sqlUpper parcelKey)

/-! ## Spec-side definitions

Definitions transcribed from the specification's wording, to be compared
with the pipeline above. -/

/-- Spec wording of the dedup preference (spec §4.2 step 5): "the row with
the best bucket, then score, then highest market value, then
lexicographically smallest key" — no source priority. -/
def claimDedupLt (x y : RankedRow) : Bool :=
  if x.relevance_bucket ≠ y.relevance_bucket then
    decide (x.relevance_bucket < y.relevance_bucket)
  else if x.relevance_score ≠ y.relevance_score then
    decide (y.relevance_score < x.relevance_score)
  else if x.market_value ≠ y.market_value then
    marketDescLt x.market_value y.market_value
  else
    strLt x.parcel_key y.parcel_key

/-- Spec wording of the final ordering (spec §4.2 step 6): "bucket
ascending, score descending, source-priority, market value descending
(nulls last), key ascending". -/
def claimFinalLt (x y : RankedRow) : Bool :=
  if x.relevance_bucket ≠ y.relevance_bucket then
    decide (x.relevance_bucket < y.relevance_bucket)
  else if x.relevance_score ≠ y.relevance_score then
    decide (y.relevance_score < x.relevance_score)
  else if x.source_rank ≠ y.source_rank then
    decide (x.source_rank < y.source_rank)
  else if x.market_value ≠ y.market_value then
    marketDescLt x.market_value y.market_value
  else
    strLt x.parcel_key y.parcel_key

/-- The search pipeline as claim C5 words it: same candidate generation,
deduplicated with the spec's four-part preference, ordered by the spec's
final ordering, truncated. -/
def searchRankedClaim (ps : List Parcel) (aps : List AddressPoint) (q : String)
    (limit : Nat) : List RankedRow :=
  let qp := mkQueryPats q
  (sortByLt claimFinalLt (dedupeRows claimDedupLt (combinedRows ps aps qp))).take limit

/-- Claim C7's wording of the normalized form: "the query lowercased with
every run of non-alphanumeric characters collapsed to a single space and
the result trimmed". -/
def claimNormalize (s : String) : String :=
  String.mk (trimSpaces (collapseAlnum false s.data))

/-- Claim C7's "normalized tokens": the (non-empty) space-separated tokens
of the normalized form. -/
def claimTokens (nq : String) : List String :=
  ((splitOnSpace nq.data).filter (fun t => t ≠ [])).map String.mk

/-- Claim C7's token seed as stated: the normalized tokens with stop words
removed, falling back to the un-stripped tokens when nothing remains. -/
def claimTokenSeed (nq : String) : List String :=
  let prim := (claimTokens nq).filter (fun t => !(stopWords.contains t))
  if prim.length > 0 then prim else claimTokens nq

/-- The amended token seed: as `claimTokenSeed`, but over the tokens of
length at least two (the handler drops shorter tokens before
stop-wording). -/
def claimTokenSeedLen2 (nq : String) : List String :=
  let toks := (claimTokens nq).filter (fun t => 2 ≤ t.length)
  let prim := toks.filter (fun t => !(stopWords.contains t))
  if prim.length > 0 then prim else toks

/-- The relation "no space directly follows a space". -/
def NoDblSp (a b : Char) : Prop := a = ' ' → b ≠ ' '

/-- The string begins with an ASCII alphanumeric character. -/
def startsAlnum (s : String) : Bool :=
  match s.data with
  | [] => false
  | c :: _ => isAsciiAlnum c

/-! ## Character-class and normalization lemmas -/

theorem isAsciiAlnum_lowerChar (c : Char) (h : isAsciiAlnum c = true) :
    isLowerAlnum (lowerChar c) = true := by
  unfold lowerChar
  by_cases hc : ('A' ≤ c && c ≤ 'Z') = true
  · rw [if_pos hc]
    simp only [Bool.and_eq_true, decide_eq_true_eq] at hc
    have h1 : (65 : Nat) ≤ c.toNat := hc.1
    have h2 : c.toNat ≤ 90 := hc.2
    have hv : (c.toNat + 32).isValidChar := Or.inl (by omega)
    have ht : (Char.ofNat (c.toNat + 32)).toNat = c.toNat + 32 := by
      unfold Char.ofNat
      rw [dif_pos hv]
      rfl
    have hlo : (97 : Nat) ≤ (Char.ofNat (c.toNat + 32)).toNat := by omega
    have hhi : (Char.ofNat (c.toNat + 32)).toNat ≤ 122 := by omega
    unfold isLowerAlnum
    have hle : 'a' ≤ Char.ofNat (c.toNat + 32) := hlo
    have hge : Char.ofNat (c.toNat + 32) ≤ 'z' := hhi
    simp [hle, hge]
  · rw [if_neg hc]
    unfold isAsciiAlnum at h
    rw [Bool.or_eq_true, Bool.or_eq_true] at h
    unfold isLowerAlnum
    rw [Bool.or_eq_true]
    rcases h with (h | h) | h
    · exact absurd h hc
    · exact Or.inl h
    · exact Or.inr h

/-- The characters produced by the normalization core: lowercase
alphanumerics and spaces only. -/
theorem collapseAlnum_chars :
    ∀ (l : List Char) (flag : Bool) (c : Char), c ∈ collapseAlnum flag l →
      isLowerAlnum c = true ∨ c = ' ' := by
  intro l
  induction l with
  | nil => intro flag c hc; simp [collapseAlnum] at hc
  | cons d ds ih =>
    intro flag c hc
    unfold collapseAlnum at hc
    by_cases ha : isAsciiAlnum d = true
    · rw [if_pos ha] at hc
      rcases List.mem_cons.mp hc with h | h
      · exact Or.inl (h ▸ isAsciiAlnum_lowerChar d ha)
      · exact ih false c h
    · rw [if_neg ha] at hc
      by_cases hf : flag
      · rw [if_pos hf] at hc
        exact ih true c hc
      · rw [if_neg hf] at hc
        rcases List.mem_cons.mp hc with h | h
        · exact Or.inr h
        · exact ih true c h

theorem collapseAlnum_true_head :
    ∀ l : List Char, (collapseAlnum true l).head? ≠ some ' ' := by
  intro l
  induction l with
  | nil => simp [collapseAlnum]
  | cons d ds ih =>
    unfold collapseAlnum
    by_cases ha : isAsciiAlnum d = true
    · rw [if_pos ha]
      intro hh
      have hl : lowerChar d = ' ' := by simpa using hh
      have := isAsciiAlnum_lowerChar d ha
      rw [hl] at this
      exact absurd this (by decide)
    · rw [if_neg ha, if_pos rfl]
      exact ih

theorem collapseAlnum_chain :
    ∀ (l : List Char) (flag : Bool), List.Chain' NoDblSp (collapseAlnum flag l) := by
  intro l
  induction l with
  | nil => intro flag; simp [collapseAlnum]
  | cons d ds ih =>
    intro flag
    unfold collapseAlnum
    by_cases ha : isAsciiAlnum d = true
    · rw [if_pos ha]
      rw [List.chain'_cons']
      refine ⟨?_, ih false⟩
      intro y _
      intro hsp
      have := isAsciiAlnum_lowerChar d ha
      rw [hsp] at this
      exact absurd this (by decide)
    · rw [if_neg ha]
      by_cases hf : flag
      · rw [if_pos hf]; exact ih true
      · rw [if_neg hf]
        rw [List.chain'_cons']
        refine ⟨?_, ih true⟩
        intro y hy
        intro _
        intro hy'
        rw [hy'] at hy
        exact collapseAlnum_true_head ds hy

theorem chain_trimLeadSpaces {l : List Char} (h : List.Chain' NoDblSp l) :
    List.Chain' NoDblSp (trimLeadSpaces l) := by
  induction l with
  | nil => simp [trimLeadSpaces]
  | cons c cs ih =>
    unfold trimLeadSpaces at ih ⊢
    rw [List.dropWhile_cons]
    by_cases hc : (c == ' ') = true
    · rw [if_pos hc]
      exact ih (List.chain'_cons'.mp h).2
    · rw [if_neg hc]
      exact h

theorem chain_flip_reverse {l : List Char}
    (h : List.Chain' NoDblSp l) :
    List.Chain' (fun a b => NoDblSp b a) l.reverse := by
  rw [List.chain'_reverse]
  exact h

theorem chain_trimLeadSpaces_flip {l : List Char}
    (h : List.Chain' (fun a b => NoDblSp b a) l) :
    List.Chain' (fun a b => NoDblSp b a) (trimLeadSpaces l) := by
  induction l with
  | nil => simp [trimLeadSpaces]
  | cons c cs ih =>
    unfold trimLeadSpaces at ih ⊢
    rw [List.dropWhile_cons]
    by_cases hc : (c == ' ') = true
    · rw [if_pos hc]
      exact ih (List.chain'_cons'.mp h).2
    · rw [if_neg hc]
      exact h

theorem chain_trimTrailSpaces {l : List Char} (h : List.Chain' NoDblSp l) :
    List.Chain' NoDblSp (trimTrailSpaces l) := by
  unfold trimTrailSpaces
  exact List.chain'_reverse.mpr (chain_trimLeadSpaces_flip (chain_flip_reverse h))

theorem chain_trimSpaces {l : List Char} (h : List.Chain' NoDblSp l) :
    List.Chain' NoDblSp (trimSpaces l) :=
  chain_trimTrailSpaces (chain_trimLeadSpaces h)

/-- The final `replace(/\s+/g, " ")` in the route is the identity on
strings without adjacent double spaces (which is what the first
replacement plus trim always produce). -/
theorem replaceRunsAux_id :
    ∀ m : List Char, List.Chain' NoDblSp m →
      replaceRunsAux (fun c => c != ' ') false m = m ∧
      (m.head? ≠ some ' ' → replaceRunsAux (fun c => c != ' ') true m = m) := by
  intro m
  induction m with
  | nil => exact fun _ => ⟨rfl, fun _ => rfl⟩
  | cons c cs ih =>
    intro h
    have hch := (List.chain'_cons'.mp h).2
    have hcr := (List.chain'_cons'.mp h).1
    have tail1 := ih hch
    constructor
    · unfold replaceRunsAux
      by_cases hc : c = ' '
      · subst hc
        simp only [bne_self_eq_false, Bool.false_eq_true, if_false, if_true]
        have hh : cs.head? ≠ some ' ' := by
          intro hh
          have := hcr ' ' (by rw [hh]; rfl)
          exact this rfl rfl
        rw [tail1.2 hh]
      · have hne : (c != ' ') = true := by simpa using hc
        rw [if_pos hne, tail1.1]
    · intro hh
      have hc : c ≠ ' ' := by
        intro hceq
        exact hh (by rw [hceq]; rfl)
      unfold replaceRunsAux
      have hne : (c != ' ') = true := by simpa using hc
      rw [if_pos hne, tail1.1]

theorem splitOnSpaceAux_no_space (l : List Char) :
    ∀ acc : List Char, (' ' ∉ acc) → ∀ t ∈ splitOnSpaceAux acc l, ' ' ∉ t := by
  induction l with
  | nil =>
    intro acc hacc t ht
    unfold splitOnSpaceAux at ht
    simp only [List.mem_singleton] at ht
    subst ht
    simpa [List.mem_reverse] using hacc
  | cons c cs ih =>
    intro acc hacc t ht
    unfold splitOnSpaceAux at ht
    by_cases hc : (c == ' ') = true
    · rw [if_pos hc] at ht
      rcases List.mem_cons.mp ht with h | h
      · subst h
        simpa [List.mem_reverse] using hacc
      · exact ih [] (by simp) t h
    · rw [if_neg hc] at ht
      refine ih (c :: acc) ?_ t ht
      intro hmem
      rcases List.mem_cons.mp hmem with h | h
      · rw [← h] at hc
        simp at hc
      · exact hacc h

theorem dropWhile_space_eq_self {m : List Char} (h : ' ' ∉ m) :
    m.dropWhile (fun c => c == ' ') = m := by
  cases m with
  | nil => rfl
  | cons c cs =>
    rw [List.dropWhile_cons, if_neg]
    intro hc
    rw [beq_iff_eq] at hc
    exact h (by rw [hc]; exact List.mem_cons_self _ _)

theorem trimSpaces_eq_self {t : List Char} (h : ' ' ∉ t) : trimSpaces t = t := by
  unfold trimSpaces trimTrailSpaces trimLeadSpaces
  rw [dropWhile_space_eq_self h]
  rw [dropWhile_space_eq_self (by simpa [List.mem_reverse] using h)]
  exact List.reverse_reverse t

/-- Filtering tokens of length at least two ignores whether empty tokens
were discarded first. -/
theorem map_mk_filter_len2 :
    ∀ L : List (List Char),
      ((L.map String.mk).filter (fun t => 2 ≤ t.length)) =
        (((L.filter (fun t => t ≠ [])).map String.mk).filter (fun t => 2 ≤ t.length)) := by
  intro L
  induction L with
  | nil => rfl
  | cons t L ih =>
    by_cases hn : t = []
    · subst hn
      have h2 : ¬ (2 ≤ (String.mk ([] : List Char)).length) := by decide
      simp [h2, ih]
    · by_cases hl : 2 ≤ (String.mk t).length
      · simp [List.filter_cons, hn, hl, ih]
      · simp [List.filter_cons, hn, hl, ih]

/-- The handler's token list equals the spec's non-empty tokens restricted
to length at least two. -/
theorem normalizedTokens_eq (nq : String) :
    normalizedTokens nq = (claimTokens nq).filter (fun t => 2 ≤ t.length) := by
  unfold normalizedTokens claimTokens
  have hmap : (splitOnSpace nq.data).map (fun t => String.mk (trimSpaces t)) =
      (splitOnSpace nq.data).map String.mk := by
    apply List.map_congr_left
    intro t ht
    rw [trimSpaces_eq_self (splitOnSpaceAux_no_space nq.data [] (by simp) t ht)]
  rw [hmap]
  exact map_mk_filter_len2 (splitOnSpace nq.data)

/-- C7 (amended). The normalized form is exactly "lowercase, collapse
non-alphanumeric runs to single spaces, trim", and the token seed is the
normalized tokens of length at least two with stop words removed, falling
back to the un-stripped length-two-or-longer tokens when stripping removes
everything. -/
theorem query_normalization_and_token_seed (q : String) :
    jsNormalize q = claimNormalize q ∧
    tokenPatternSeed (jsNormalize q) = claimTokenSeedLen2 (jsNormalize q) := by
  constructor
  · unfold jsNormalize claimNormalize replaceRuns
    congr 1
    exact (replaceRunsAux_id _ (chain_trimSpaces (collapseAlnum_chain q.data false))).1
  · unfold tokenPatternSeed claimTokenSeedLen2 primaryTokens
    rw [normalizedTokens_eq (jsNormalize q)]

/-! ## LIKE-prefix and ranking lemmas -/

theorem likeMatchF_pct :
    ∀ (t : List Char) (fuel : Nat), t.length + 2 ≤ fuel →
      likeMatchF fuel ['%'] t = true := by
  intro t
  induction t with
  | nil =>
    intro fuel hf
    match fuel, hf with
    | f + 1, hf2 =>
      unfold likeMatchF
      rw [if_pos (by decide)]
      have h1f : 1 ≤ f := by simp only [List.length_nil] at hf2; omega
      match f, h1f with
      | g + 1, _ =>
        unfold likeMatchF
        simp
  | cons c t ih =>
    intro fuel hf
    match fuel, hf with
    | f + 1, hf2 =>
      unfold likeMatchF
      rw [if_pos (by decide)]
      have := ih f (by simp only [List.length_cons] at hf2; omega)
      simp [this]

theorem likeMatchF_self_append :
    ∀ (p t : List Char) (fuel : Nat), (∀ c ∈ p, c ≠ '%') →
      p.length + t.length + 2 ≤ fuel →
      likeMatchF fuel (p ++ ['%']) (p ++ t) = true := by
  intro p
  induction p with
  | nil =>
    intro t fuel _ hf
    simpa using likeMatchF_pct t fuel (by simpa using hf)
  | cons c p ih =>
    intro t fuel hp hf
    match fuel, hf with
    | f + 1, hf2 =>
      simp only [List.cons_append]
      rw [likeMatchF]
      have hc : ¬ ((c == '%') = true) := by
        simp only [beq_iff_eq]
        exact hp c (List.mem_cons_self _ _)
      rw [if_neg hc]
      have hrec := ih t f (fun d hd => hp d (List.mem_cons_of_mem _ hd))
        (by simp only [List.length_cons] at hf2; omega)
      simp [hrec]

/-- Characters of the normalized query: lowercase alphanumerics and spaces. -/
theorem jsNormalize_chars (s : String) :
    ∀ c ∈ (jsNormalize s).data, isLowerAlnum c = true ∨ c = ' ' := by
  intro c hc
  unfold jsNormalize at hc
  simp only [String.data] at hc
  unfold replaceRuns at hc
  rw [(replaceRunsAux_id _ (chain_trimSpaces (collapseAlnum_chain s.data false))).1] at hc
  unfold trimSpaces trimTrailSpaces trimLeadSpaces at hc
  rw [List.mem_reverse] at hc
  have hc2 := (List.dropWhile_sublist _).mem hc
  rw [List.mem_reverse] at hc2
  have hc3 := (List.dropWhile_sublist _).mem hc2
  exact collapseAlnum_chars s.data false c hc3

/-- For a raw query equal to a parcel key that starts alphanumeric, the
key's SQL normalization extends the JS-normalized query, so the
`normalized_parcel_key LIKE normalizedPrefix` condition fires. -/
theorem sqlNormalize_extends_jsNormalize (s : String) (h : startsAlnum s = true) :
    ∃ t : List Char, (sqlNormalize s).data = (jsNormalize s).data ++ t := by
  unfold sqlNormalize jsNormalize replaceRuns
  simp only [String.data]
  rw [(replaceRunsAux_id _ (chain_trimSpaces (collapseAlnum_chain s.data false))).1]
  unfold startsAlnum at h
  match hs : s.data with
  | [] => simp [hs] at h
  | c :: cs =>
    rw [hs] at h
    have hlead : trimLeadSpaces (collapseAlnum false (c :: cs)) =
        collapseAlnum false (c :: cs) := by
      unfold collapseAlnum
      rw [if_pos h]
      unfold trimLeadSpaces
      rw [List.dropWhile_cons, if_neg]
      intro hb
      rw [beq_iff_eq] at hb
      have := isAsciiAlnum_lowerChar c h
      rw [hb] at this
      exact absurd this (by decide)
    unfold trimSpaces
    rw [hlead]
    refine ⟨(List.takeWhile (fun c => c == ' ')
      (collapseAlnum false (c :: cs)).reverse).reverse, ?_⟩
    unfold trimTrailSpaces trimLeadSpaces
    rw [← List.reverse_append]
    rw [List.takeWhile_append_dropWhile]
    rw [List.reverse_reverse]

theorem exactKey_like_normPre (q : String) (P : Parcel)
    (hq : jsTrim q = P.parcel_key) (hh : startsAlnum P.parcel_key = true) :
    sqlLike (pNormKey P) ((mkQueryPats q).patNormPre) = true := by
  have hpats : (mkQueryPats q).patNormPre = jsNormalize P.parcel_key ++ "%" := by
    unfold mkQueryPats
    rw [hq]
  rw [hpats]
  unfold sqlLike pNormKey
  obtain ⟨t, ht⟩ := sqlNormalize_extends_jsNormalize P.parcel_key hh
  rw [String.data_append, ht]
  have hpc : ("%" : String).data = ['%'] := rfl
  rw [hpc]
  apply likeMatchF_self_append
  · intro c hc
    rcases jsNormalize_chars P.parcel_key c hc with h | h
    · intro he; rw [he] at h; exact absurd h (by decide)
    · intro he; rw [he] at h; exact absurd h (by decide)
  · simp only [List.length_append, List.length_cons, List.length_nil]
    omega

theorem parcelBucket_le_two (qp : QueryPats) (p : Parcel)
    (hlike : sqlLike (pNormKey p) qp.patNormPre = true) :
    parcelBucket qp p ≤ 2 := by
  unfold parcelBucket
  split_ifs <;> omega

theorem parcelBucket_ge_three (qp : QueryPats) (p : Parcel)
    (h1 : (pNormAddress p == qp.normalizedQuery) = false)
    (h2 : sqlLike (pNormAddress p) qp.patNormPre = false)
    (h3 : sqlLike (pNormKey p) qp.patNormPre = false) :
    3 ≤ parcelBucket qp p := by
  unfold parcelBucket
  rw [h1, h2, h3]
  simp only [Bool.false_eq_true, if_false]
  split_ifs <;> omega

theorem addressBucket_ge_three (qp : QueryPats) (a : AddressPoint)
    (h1 : (a.normalized_address == qp.normalizedQuery) = false)
    (h2 : sqlLike a.normalized_address qp.patNormPre = false)
    (h3 : sqlIlike a.address_label qp.patRawPre = false) :
    3 ≤ addressBucket qp a := by
  unfold addressBucket
  rw [h1, h2, h3]
  simp only [Bool.false_eq_true, if_false]
  split_ifs <;> omega

theorem rowOrdLt_true_bucket_le {a b : RankedRow} (h : rowOrdLt a b = true) :
    a.relevance_bucket ≤ b.relevance_bucket := by
  unfold rowOrdLt at h
  by_cases hb : a.relevance_bucket ≠ b.relevance_bucket
  · rw [if_pos hb] at h
    rw [decide_eq_true_eq] at h
    omega
  · omega

theorem rowOrdLt_false_bucket_le {a b : RankedRow} (h : rowOrdLt a b = false) :
    b.relevance_bucket ≤ a.relevance_bucket := by
  unfold rowOrdLt at h
  by_cases hb : a.relevance_bucket ≠ b.relevance_bucket
  · rw [if_pos hb] at h
    rw [decide_eq_false_iff_not] at h
    omega
  · omega

theorem mem_insertSorted {α : Type} (lt : α → α → Bool) (x z : α) :
    ∀ l : List α, z ∈ insertSorted lt x l ↔ z = x ∨ z ∈ l := by
  intro l
  induction l with
  | nil => simp [insertSorted]
  | cons y ys ih =>
    unfold insertSorted
    by_cases hc : lt y x = true
    · rw [if_pos hc]
      simp only [List.mem_cons, ih]
      tauto
    · rw [if_neg hc]
      simp [List.mem_cons]

theorem insertSorted_bucket_pairwise (x : RankedRow) :
    ∀ l : List RankedRow,
      List.Pairwise (fun r1 r2 : RankedRow =>
        r1.relevance_bucket ≤ r2.relevance_bucket) l →
      List.Pairwise (fun r1 r2 : RankedRow =>
        r1.relevance_bucket ≤ r2.relevance_bucket) (insertSorted rowOrdLt x l) := by
  intro l
  induction l with
  | nil => intro _; simp [insertSorted]
  | cons y ys ih =>
    intro h
    rw [List.pairwise_cons] at h
    unfold insertSorted
    by_cases hc : rowOrdLt y x = true
    · rw [if_pos hc]
      rw [List.pairwise_cons]
      constructor
      · intro z hz
        rcases (mem_insertSorted rowOrdLt x z ys).mp hz with hzx | hzy
        · subst hzx
          exact rowOrdLt_true_bucket_le hc
        · exact h.1 z hzy
      · exact ih h.2
    · rw [if_neg hc]
      rw [List.pairwise_cons]
      constructor
      · have hcf : rowOrdLt y x = false := by
          cases hv : rowOrdLt y x
          · rfl
          · exact absurd hv hc
        intro z hz
        rcases List.mem_cons.mp hz with hzy | hzz
        · subst hzy
          exact rowOrdLt_false_bucket_le hcf
        · have h1 : y.relevance_bucket ≤ z.relevance_bucket := h.1 z hzz
          have h2 : x.relevance_bucket ≤ y.relevance_bucket :=
            rowOrdLt_false_bucket_le hcf
          omega
      · rw [List.pairwise_cons]
        exact ⟨h.1, h.2⟩

theorem sortByLt_bucket_pairwise :
    ∀ l : List RankedRow,
      List.Pairwise (fun r1 r2 : RankedRow =>
        r1.relevance_bucket ≤ r2.relevance_bucket) (sortByLt rowOrdLt l) := by
  intro l
  induction l with
  | nil => simp [sortByLt]
  | cons x xs ih =>
    unfold sortByLt
    exact insertSorted_bucket_pairwise x _ ih

/-- The returned list is ordered by relevance bucket. -/
theorem searchRanked_bucket_sorted (ps : List Parcel) (aps : List AddressPoint)
    (q : String) (limit : Nat) :
    List.Pairwise (fun r1 r2 : RankedRow =>
      r1.relevance_bucket ≤ r2.relevance_bucket) (searchRanked ps aps q limit) := by
  unfold searchRanked
  exact List.Pairwise.sublist (List.take_sublist _ _) (sortByLt_bucket_pairwise _)

/-- C6 (amended). For a query that exactly equals a stored parcel's key
(leading character alphanumeric), that parcel receives relevance bucket at
most 2; every candidate — parcel or address point — that matches neither by
exact normalized address, nor by normalized-address prefix, nor by
parcel-key prefix, nor by raw prefix (i.e. that matches only by substring,
token, or owner-name) receives bucket at least 3, strictly worse; and the
returned list is ordered by bucket, so no such candidate precedes the
exact-key parcel. The parcel need not be first overall: a candidate whose
normalized address has the query as a prefix receives bucket 1. -/
theorem exact_parcel_key_ranking
    (ps : List Parcel) (aps : List AddressPoint) (q : String) (limit : Nat)
    (P : Parcel)
    (hq : jsTrim q = P.parcel_key)
    (hh : startsAlnum P.parcel_key = true) :
    parcelBucket (mkQueryPats q) P ≤ 2 ∧
    (∀ C : Parcel,
      (pNormAddress C == (mkQueryPats q).normalizedQuery) = false →
      sqlLike (pNormAddress C) (mkQueryPats q).patNormPre = false →
      sqlLike (pNormKey C) (mkQueryPats q).patNormPre = false →
      parcelBucket (mkQueryPats q) P < parcelBucket (mkQueryPats q) C) ∧
    (∀ A : AddressPoint,
      (A.normalized_address == (mkQueryPats q).normalizedQuery) = false →
      sqlLike A.normalized_address (mkQueryPats q).patNormPre = false →
      sqlIlike A.address_label (mkQueryPats q).patRawPre = false →
      parcelBucket (mkQueryPats q) P < addressBucket (mkQueryPats q) A) ∧
    List.Pairwise (fun r1 r2 : RankedRow =>
      r1.relevance_bucket ≤ r2.relevance_bucket) (searchRanked ps aps q limit) := by
  have hP : parcelBucket (mkQueryPats q) P ≤ 2 :=
    parcelBucket_le_two _ _ (exactKey_like_normPre q P hq hh)
  refine ⟨hP, ?_, ?_, searchRanked_bucket_sorted ps aps q limit⟩
  · intro C h1 h2 h3
    have := parcelBucket_ge_three (mkQueryPats q) C h1 h2 h3
    omega
  · intro A h1 h2 h3
    have := addressBucket_ge_three (mkQueryPats q) A h1 h2 h3
    omega

/-- C6 witness. -/
theorem exact_parcel_key_ranking_witness :
    jsTrim "ZZ1" = ("ZZ1" : String) ∧
    parcelBucket (mkQueryPats "ZZ1")
      ⟨"ZZ1", none, none, none, none, some 100, none, ⟨0, 0⟩⟩ ≤ 2 ∧
    parcelBucket (mkQueryPats "ZZ1")
        ⟨"ZZ1", none, none, none, none, some 100, none, ⟨0, 0⟩⟩ <
      parcelBucket (mkQueryPats "ZZ1")
        ⟨"K7", none, some "Bob Zz1on", none, none, some 9, none, ⟨5, 5⟩⟩ := by
  have h := exact_parcel_key_ranking
    [⟨"ZZ1", none, none, none, none, some 100, none, ⟨0, 0⟩⟩]
    [] "ZZ1" 20 ⟨"ZZ1", none, none, none, none, some 100, none, ⟨0, 0⟩⟩
    (by decide) (by decide)
  exact ⟨by decide, h.1,
    h.2.1 ⟨"K7", none, some "Bob Zz1on", none, none, some 9, none, ⟨5, 5⟩⟩
      (by decide) (by decide) (by decide)⟩

/-- C6 counterexample to the claim as stated: for the query "ZZ1", which
exactly equals the stored parcel key "ZZ1", a second parcel matching only
by a partial (prefix/substring) address gets bucket 1 while the exact-key
parcel gets bucket 2, and the exact-key parcel is not the first result. -/
theorem exact_parcel_key_not_first_counterexample :
    ("ZZ1" : String) =
      (⟨"ZZ1", none, none, none, none, some 100, none, ⟨0, 0⟩⟩ : Parcel).parcel_key ∧
    (pNormAddress
        ⟨"OTHER", some "zz1 extra", none, none, none, some 50, none, ⟨1, 1⟩⟩ ==
      (mkQueryPats "ZZ1").normalizedQuery) = false ∧
    (pNormKey
        ⟨"OTHER", some "zz1 extra", none, none, none, some 50, none, ⟨1, 1⟩⟩ ==
      (mkQueryPats "ZZ1").normalizedQuery) = false ∧
    sqlIlike
      (pNormAddress
        ⟨"OTHER", some "zz1 extra", none, none, none, some 50, none, ⟨1, 1⟩⟩)
      (mkQueryPats "ZZ1").patNormSub = true ∧
    parcelBucket (mkQueryPats "ZZ1")
      (⟨"ZZ1", none, none, none, none, some 100, none, ⟨0, 0⟩⟩ : Parcel) = 2 ∧
    parcelBucket (mkQueryPats "ZZ1")
      (⟨"OTHER", some "zz1 extra", none, none, none, some 50, none, ⟨1, 1⟩⟩ : Parcel) = 1 ∧
    ¬ (parcelBucket (mkQueryPats "ZZ1")
        (⟨"ZZ1", none, none, none, none, some 100, none, ⟨0, 0⟩⟩ : Parcel) <
       parcelBucket (mkQueryPats "ZZ1")
        (⟨"OTHER", some "zz1 extra", none, none, none, some 50, none, ⟨1, 1⟩⟩ : Parcel)) ∧
    (searchRanked
        [⟨"ZZ1", none, none, none, none, some 100, none, ⟨0, 0⟩⟩,
         ⟨"OTHER", some "zz1 extra", none, none, none, some 50, none, ⟨1, 1⟩⟩]
        [] "ZZ1" 20).head?.map RankedRow.dedupe_key = some "OTHER" := by
  refine ⟨by decide, by decide, by decide, by decide, by decide, by decide,
    by decide, by decide⟩

/-! ## Selection lemmas for the dedup stage -/

theorem best1_mem {α : Type} (lt : α → α → Bool) :
    ∀ (l : List α) (cur : α), best1 lt cur l = cur ∨ best1 lt cur l ∈ l := by
  intro l
  induction l with
  | nil => intro cur; exact Or.inl rfl
  | cons x xs ih =>
    intro cur
    unfold best1
    by_cases hc : lt x cur = true
    · rw [if_pos hc]
      rcases ih x with h | h
      · right; rw [h]; exact List.mem_cons_self _ _
      · right; exact List.mem_cons_of_mem _ h
    · rw [if_neg hc]
      rcases ih cur with h | h
      · exact Or.inl h
      · right; exact List.mem_cons_of_mem _ h

theorem pickFirstMin_mem {α : Type} (lt : α → α → Bool) (l : List α) (x : α)
    (h : pickFirstMin lt l = some x) : x ∈ l := by
  cases l with
  | nil => simp [pickFirstMin] at h
  | cons y ys =>
    unfold pickFirstMin at h
    have hx : best1 lt y ys = x := by
      injection h
    rcases best1_mem lt ys y with h2 | h2
    · rw [hx] at h2
      rw [h2]
      exact List.mem_cons_self _ _
    · rw [hx] at h2
      exact List.mem_cons_of_mem _ h2

/-- Two comparators that agree on later-element-versus-candidate pairs
produce the same earliest minimum. -/
theorem best1_congrOn {α : Type} (lt1 lt2 : α → α → Bool) (A C : α → Prop)
    (hAC : ∀ x, A x → C x)
    (heq : ∀ x c, A x → C c → lt1 x c = lt2 x c) :
    ∀ (l : List α) (cur : α), C cur → (∀ x ∈ l, A x) →
      best1 lt1 cur l = best1 lt2 cur l := by
  intro l
  induction l with
  | nil => intro cur _ _; rfl
  | cons x xs ih =>
    intro cur hcur hl
    unfold best1
    rw [heq x cur (hl x (List.mem_cons_self _ _)) hcur]
    by_cases hc : lt2 x cur = true
    · rw [if_pos hc]
      exact ih x (hAC x (hl x (List.mem_cons_self _ _)))
        (fun z hz => hl z (List.mem_cons_of_mem _ hz))
    · rw [if_neg hc]
      exact ih cur hcur (fun z hz => hl z (List.mem_cons_of_mem _ hz))

theorem pairwise_filter_len_le_one {α κ : Type} [DecidableEq κ] (key : α → κ) :
    ∀ l : List α, l.Pairwise (fun a b => key a ≠ key b) → ∀ k : κ,
      (l.filter (fun r => key r = k)).length ≤ 1 := by
  intro l
  induction l with
  | nil => intro _ k; simp
  | cons x xs ih =>
    intro h k
    rw [List.pairwise_cons] at h
    rw [List.filter_cons]
    by_cases hx : key x = k
    · simp only [hx, decide_eq_true_eq, if_pos]
      have hemp : xs.filter (fun r => key r = k) = [] := by
        rw [List.filter_eq_nil_iff]
        intro b hb
        simp only [decide_eq_true_eq]
        intro hbk
        exact h.1 b hb (by rw [hx, hbk])
      simp [hx, hemp]
    · have : (decide (key x = k)) = false := by simp [hx]
      rw [this]
      simp only [Bool.false_eq_true, if_false]
      exact ih h.2 k

theorem dedupFirst_nodup {κ : Type} [DecidableEq κ] :
    ∀ l : List κ, (dedupFirst l).Nodup := by
  intro l
  induction l with
  | nil => exact List.nodup_nil
  | cons k ks ih =>
    unfold dedupFirst
    rw [List.nodup_cons]
    constructor
    · intro hmem
      have := List.of_mem_filter hmem
      simp at this
    · exact List.Nodup.filter _ ih

theorem mem_key_of_mem_filterMap {α κ : Type} (key : α → κ)
    (g : κ → Option α) (hg : ∀ m r, g m = some r → key r = m) :
    ∀ (ms : List κ) (r : α), r ∈ ms.filterMap g → key r ∈ ms := by
  intro ms
  induction ms with
  | nil => intro r hr; simp at hr
  | cons m ms ih =>
    intro r hr
    rw [List.filterMap_cons] at hr
    cases hm : g m with
    | none =>
      rw [hm] at hr
      exact List.mem_cons_of_mem _ (ih r hr)
    | some r0 =>
      rw [hm] at hr
      rcases List.mem_cons.mp hr with h | h
      · subst h
        rw [hg m r hm]
        exact List.mem_cons_self _ _
      · exact List.mem_cons_of_mem _ (ih r h)

theorem filterMap_keys_pairwise {α κ : Type} (key : α → κ)
    (g : κ → Option α) (hg : ∀ m r, g m = some r → key r = m) :
    ∀ ms : List κ, ms.Nodup →
      (ms.filterMap g).Pairwise (fun a b => key a ≠ key b) := by
  intro ms
  induction ms with
  | nil => intro _; simp
  | cons m ms ih =>
    intro h
    rw [List.nodup_cons] at h
    rw [List.filterMap_cons]
    cases hm : g m with
    | none => exact ih h.2
    | some r0 =>
      rw [List.pairwise_cons]
      constructor
      · intro b hb
        rw [hg m r0 hm]
        intro heq
        exact h.1 (heq ▸ mem_key_of_mem_filterMap key g hg ms b hb)
      · exact ih h.2

theorem selectPerKey_keys_pairwise {α κ : Type} [DecidableEq κ]
    (key : α → κ) (lt : α → α → Bool) (l : List α) :
    (selectPerKey key lt l).Pairwise (fun a b => key a ≠ key b) := by
  unfold selectPerKey
  apply filterMap_keys_pairwise
  · intro m r hm
    have := pickFirstMin_mem lt _ r hm
    have := List.of_mem_filter this
    simpa using this
  · exact dedupFirst_nodup _

theorem selectPerKey_subset {α κ : Type} [DecidableEq κ]
    (key : α → κ) (lt : α → α → Bool) (l : List α) (r : α)
    (h : r ∈ selectPerKey key lt l) : r ∈ l := by
  unfold selectPerKey at h
  rw [List.mem_filterMap] at h
  obtain ⟨k, _, hk⟩ := h
  have := pickFirstMin_mem lt _ r hk
  exact List.mem_of_mem_filter this

theorem pairwise_ne_key_inj {α κ : Type} (key : α → κ) :
    ∀ l : List α, l.Pairwise (fun a b => key a ≠ key b) →
      ∀ a ∈ l, ∀ b ∈ l, key a = key b → a = b := by
  intro l
  induction l with
  | nil => intro _ a ha; simp at ha
  | cons x xs ih =>
    intro h a ha b hb heq
    rw [List.pairwise_cons] at h
    rcases List.mem_cons.mp ha with ha1 | ha1 <;>
      rcases List.mem_cons.mp hb with hb1 | hb1
    · rw [ha1, hb1]
    · subst ha1
      exact absurd heq (h.1 b hb1)
    · subst hb1
      exact absurd heq.symm (h.1 a ha1)
    · exact ih h.2 a ha1 b hb1 heq

theorem parcelSeed_subset (ps : List Parcel) (qp : QueryPats) :
    ∀ p ∈ parcelSeed ps qp, p ∈ ps := by
  intro p hp
  unfold parcelSeed at hp
  simp only [List.mem_append] at hp
  rcases hp with (((((h | h) | h) | h) | h) | h) <;>
    exact List.mem_of_mem_filter ((List.take_sublist _ _).mem h)

theorem parcelPrepared_subset (ps : List Parcel) (qp : QueryPats) :
    ∀ p ∈ parcelPrepared ps qp, p ∈ ps := by
  intro p hp
  exact parcelSeed_subset ps qp p (selectPerKey_subset _ _ _ p hp)

theorem rankAddress_facts (qp : QueryPats) (ps : List Parcel) (a : AddressPoint) :
    (rankAddress qp ps a).source_rank = 1 ∧
    (rankAddress qp ps a).parcel_key = (rankAddress qp ps a).dedupe_key ∧
    ((rankAddress qp ps a).market_value = none ∨
      ∃ p ∈ ps, p.parcel_key = (rankAddress qp ps a).dedupe_key ∧
        (rankAddress qp ps a).market_value = p.market_value) := by
  cases hb : backfillParcel ps a with
  | none =>
    refine ⟨rfl, rfl, Or.inl ?_⟩
    simp [rankAddress, hb]
  | some p =>
    refine ⟨rfl, rfl, Or.inr ⟨p, ?_, ?_, ?_⟩⟩
    · unfold backfillParcel at hb
      exact List.mem_of_mem_filter (pickFirstMin_mem _ _ p hb)
    · simp [rankAddress, hb]
    · simp [rankAddress, hb]

theorem strLtChars_irrefl : ∀ l : List Char, strLtChars l l = false := by
  intro l
  induction l with
  | nil => rfl
  | cons a as ih =>
    unfold strLtChars
    rw [if_pos (by simp)]
    exact ih

theorem strLt_irrefl (s : String) : strLt s s = false := strLtChars_irrefl s.data

/-- Inside one dedupe partition the code's five-part order and the spec's
four-part order coincide: they can only differ at the source-rank slot, and
there either the markets are equal, or the later (address-sourced) row's
market is `NULL`, and the keys agree — in every case both comparators say
"do not replace". -/
theorem rowOrdLt_eq_claimDedupLt (x c : RankedRow)
    (h : x.source_rank = c.source_rank ∨
      (c.source_rank = 0 ∧ (x.market_value = c.market_value ∨ x.market_value = none) ∧
        x.parcel_key = c.parcel_key)) :
    rowOrdLt x c = claimDedupLt x c := by
  unfold rowOrdLt claimDedupLt
  by_cases hb : x.relevance_bucket ≠ c.relevance_bucket
  · rw [if_pos hb, if_pos hb]
  · rw [if_neg hb, if_neg hb]
    by_cases hs : x.relevance_score ≠ c.relevance_score
    · rw [if_pos hs, if_pos hs]
    · rw [if_neg hs, if_neg hs]
      by_cases hsrc : x.source_rank ≠ c.source_rank
      · rw [if_pos hsrc]
        rcases h with h | ⟨hc0, hm, hk⟩
        · exact absurd h hsrc
        · have hlt : decide (x.source_rank < c.source_rank) = false := by
            rw [hc0]; simp
          rw [hlt]
          by_cases hm2 : x.market_value ≠ c.market_value
          · rw [if_pos hm2]
            rcases hm with hm | hm
            · exact absurd hm hm2
            · rw [hm]
              rfl
          · rw [if_neg hm2, hk]
            exact (strLt_irrefl _).symm
      · rw [if_neg hsrc]

/-- If the parcel-sourced part of a partition has at most one row (it
always precedes the address-sourced part) and the two comparators agree on
every later-row-versus-candidate pair, both pick the same survivor. -/
theorem pick_eq_of_partition_facts (PP AA : List RankedRow)
    (hPPlen : PP.length ≤ 1)
    (hagree : ∀ x c : RankedRow, x ∈ AA → (c ∈ PP ∨ c ∈ AA) →
      rowOrdLt x c = claimDedupLt x c) :
    pickFirstMin rowOrdLt (PP ++ AA) = pickFirstMin claimDedupLt (PP ++ AA) := by
  cases PP with
  | nil =>
    rw [List.nil_append]
    cases AA with
    | nil => rfl
    | cons a as =>
      show some (best1 rowOrdLt a as) = some (best1 claimDedupLt a as)
      congr 1
      exact best1_congrOn rowOrdLt claimDedupLt (fun r => r ∈ a :: as)
        (fun r => r ∈ a :: as)
        (fun x h => h)
        (fun x c hx hc => hagree x c hx (Or.inr hc))
        as a (List.mem_cons_self _ _) (fun z hz => List.mem_cons_of_mem _ hz)
  | cons c0 rest =>
    have hrest : rest = [] := by
      simp only [List.length_cons] at hPPlen
      exact List.length_eq_zero.mp (by omega)
    subst hrest
    rw [List.singleton_append]
    show some (best1 rowOrdLt c0 AA) = some (best1 claimDedupLt c0 AA)
    congr 1
    refine best1_congrOn rowOrdLt claimDedupLt (fun r => r ∈ AA)
      (fun r => r = c0 ∨ r ∈ AA)
      (fun x h => Or.inr h)
      (fun x c hx hc => hagree x c hx ?_)
      AA c0 (Or.inl rfl) (fun z hz => hz)
    rcases hc with hc | hc
    · exact Or.inl (by rw [hc]; exact List.mem_cons_self _ _)
    · exact Or.inr hc

/-- Per dedupe key, the code's `ROW_NUMBER` survivor equals the spec's
(source-rank-free) survivor, given the schema's parcel-key uniqueness. -/
theorem partition_pick_eq
    (ps : List Parcel) (aps : List AddressPoint) (qp : QueryPats)
    (hkeys : ps.Pairwise (fun p1 p2 : Parcel => p1.parcel_key ≠ p2.parcel_key))
    (k : String) :
    pickFirstMin rowOrdLt
        ((combinedRows ps aps qp).filter (fun r => r.dedupe_key = k)) =
      pickFirstMin claimDedupLt
        ((combinedRows ps aps qp).filter (fun r => r.dedupe_key = k)) := by
  have hsplit : (combinedRows ps aps qp).filter (fun r => r.dedupe_key = k) =
      ((parcelPrepared ps qp).map (rankParcel qp)).filter (fun r => r.dedupe_key = k) ++
        ((addressCandidates aps qp).map (rankAddress qp ps)).filter
          (fun r => r.dedupe_key = k) := by
    unfold combinedRows
    exact List.filter_append _ _
  have hPPfacts : ∀ x ∈ ((parcelPrepared ps qp).map (rankParcel qp)).filter
      (fun r => r.dedupe_key = k),
      x.source_rank = 0 ∧ x.parcel_key = x.dedupe_key ∧
        ∃ p ∈ ps, p.parcel_key = x.dedupe_key ∧ x.market_value = p.market_value := by
    intro x hx
    have hx2 := List.mem_of_mem_filter hx
    rw [List.mem_map] at hx2
    obtain ⟨p, hpmem, hpx⟩ := hx2
    subst hpx
    exact ⟨rfl, rfl, p, parcelPrepared_subset ps qp p hpmem, rfl, rfl⟩
  have hAAfacts : ∀ x ∈ ((addressCandidates aps qp).map (rankAddress qp ps)).filter
      (fun r => r.dedupe_key = k),
      x.source_rank = 1 ∧ x.parcel_key = x.dedupe_key ∧
        (x.market_value = none ∨
          ∃ p ∈ ps, p.parcel_key = x.dedupe_key ∧ x.market_value = p.market_value) := by
    intro x hx
    have hx2 := List.mem_of_mem_filter hx
    rw [List.mem_map] at hx2
    obtain ⟨a, _, hax⟩ := hx2
    subst hax
    exact rankAddress_facts qp ps a
  have hkeyPP : ∀ x ∈ ((parcelPrepared ps qp).map (rankParcel qp)).filter
      (fun r => r.dedupe_key = k), x.dedupe_key = k := by
    intro x hx
    have := List.of_mem_filter hx
    simpa using this
  have hkeyAA : ∀ x ∈ ((addressCandidates aps qp).map (rankAddress qp ps)).filter
      (fun r => r.dedupe_key = k), x.dedupe_key = k := by
    intro x hx
    have := List.of_mem_filter hx
    simpa using this
  rw [hsplit]
  apply pick_eq_of_partition_facts
  · apply pairwise_filter_len_le_one RankedRow.dedupe_key
    rw [List.pairwise_map]
    exact (selectPerKey_keys_pairwise Parcel.parcel_key _ _).imp (fun h => h)
  · intro x c hx hc
    rcases hc with hc | hc
    · obtain ⟨hsrcc, hkeyc, p, hpmem, hpk, hpm⟩ := hPPfacts c hc
      obtain ⟨hsrcx, hkeyx, hmx⟩ := hAAfacts x hx
      apply rowOrdLt_eq_claimDedupLt
      right
      refine ⟨hsrcc, ?_, ?_⟩
      · rcases hmx with hmx | ⟨p2, hp2mem, hp2k, hp2m⟩
        · exact Or.inr hmx
        · left
          have hpp : p = p2 :=
            pairwise_ne_key_inj Parcel.parcel_key ps hkeys p hpmem p2 hp2mem
              (by rw [hpk, hp2k, hkeyAA x hx, hkeyPP c hc])
          rw [hp2m, hpm, ← hpp]
      · rw [hkeyx, hkeyc, hkeyAA x hx, hkeyPP c hc]
    · apply rowOrdLt_eq_claimDedupLt
      left
      rw [(hAAfacts x hx).1, (hAAfacts c hc).1]

/-- C5. The search output contract: with the schema's parcel-key uniqueness,
the pipeline's returned list equals the spec's description — merge, dedupe
by stable key keeping the best (bucket, score, market value, key) row, order
by (bucket, score, source priority, market value, key), truncate. -/
theorem search_dedup_order_contract
    (ps : List Parcel) (aps : List AddressPoint) (q : String) (limit : Nat)
    (hkeys : ps.Pairwise (fun p1 p2 : Parcel => p1.parcel_key ≠ p2.parcel_key)) :
    searchRanked ps aps q limit = searchRankedClaim ps aps q limit := by
  have hded : dedupeRows rowOrdLt (combinedRows ps aps (mkQueryPats q)) =
      dedupeRows claimDedupLt (combinedRows ps aps (mkQueryPats q)) := by
    unfold dedupeRows selectPerKey
    have hfun : (fun k => pickFirstMin rowOrdLt
        ((combinedRows ps aps (mkQueryPats q)).filter
          (fun r => RankedRow.dedupe_key r = k))) =
        (fun k => pickFirstMin claimDedupLt
          ((combinedRows ps aps (mkQueryPats q)).filter
            (fun r => RankedRow.dedupe_key r = k))) :=
      funext (fun k => partition_pick_eq ps aps (mkQueryPats q) hkeys k)
    rw [hfun]
  unfold searchRanked searchRankedClaim
  show List.take limit
      (sortByLt rowOrdLt (dedupeRows rowOrdLt (combinedRows ps aps (mkQueryPats q)))) =
    List.take limit
      (sortByLt rowOrdLt (dedupeRows claimDedupLt (combinedRows ps aps (mkQueryPats q))))
  rw [hded]

/-- C5 witness: a concrete dataset where the parcel and address source sets
overlap; the schema-side hypothesis (distinct parcel keys) holds by
computation. -/
theorem search_dedup_order_contract_witness :
    searchRanked
        [⟨"ZZ1", none, none, none, none, some 100, none, ⟨0, 0⟩⟩,
         ⟨"OTHER", some "zz1 extra", none, none, none, some 50, none, ⟨1, 1⟩⟩]
        [⟨9, "12 Oakmont", "12 oakmont", some "Travis", ⟨200000000, 200000000⟩⟩]
        "12 oak" 20 =
      searchRankedClaim
        [⟨"ZZ1", none, none, none, none, some 100, none, ⟨0, 0⟩⟩,
         ⟨"OTHER", some "zz1 extra", none, none, none, some 50, none, ⟨1, 1⟩⟩]
        [⟨9, "12 Oakmont", "12 oakmont", some "Travis", ⟨200000000, 200000000⟩⟩]
        "12 oak" 20 :=
  search_dedup_order_contract
    [⟨"ZZ1", none, none, none, none, some 100, none, ⟨0, 0⟩⟩,
     ⟨"OTHER", some "zz1 extra", none, none, none, some 50, none, ⟨1, 1⟩⟩]
    [⟨9, "12 Oakmont", "12 oakmont", some "Travis", ⟨200000000, 200000000⟩⟩]
    "12 oak" 20 (by decide)

/-- C7 counterexample to the claim as stated: for the query "j st" the
spec-worded seed (all tokens minus stop words) is `["j"]`, but the handler
drops the single-letter token first, strips "st" as a stop word, and falls
back to `["st"]`. -/
theorem token_seed_counterexample :
    jsNormalize "j st" = "j st" ∧
    claimTokenSeed (jsNormalize "j st") = ["j"] ∧
    tokenPatternSeed (jsNormalize "j st") = ["st"] ∧
    tokenPatternSeed (jsNormalize "j st") ≠ claimTokenSeed (jsNormalize "j st") := by
  refine ⟨by decide, by decide, by decide, by decide⟩

/-! ## Theorems -/

/-- C4. Login anti-enumeration: a login naming a username with no user row
and a login naming an existing active user with a wrong password produce
identical responses: both `401` with the error body "Invalid credentials". -/
theorem login_anti_enumeration
    (env : AuthEnv) (db : Db) (now : Nat)
    (u1 p1 u2 p2 : String) (d1 i1 a1 d2 i2 a2 : Option String)
    (sid1 t1 sid2 t2 : String) (u : UserRow)
    (hv1 : 1 ≤ (jsTrim u1).length) (hv1p : 1 ≤ p1.length)
    (hv2 : 1 ≤ (jsTrim u2).length) (hv2p : 1 ≤ p2.length)
    (h1 : db.users.find? (fun v => citextEq v.username (jsTrim u1)) = none)
    (h2 : db.users.find? (fun v => citextEq v.username (jsTrim u2)) = some u)
    (hact : u.is_active = true)
    (hpw : bcryptCompare p2 u.password_hash = false) :
    (login env db now u1 p1 d1 i1 a1 sid1 t1).1 = .err 401 "Invalid credentials" ∧
    (login env db now u2 p2 d2 i2 a2 sid2 t2).1 = .err 401 "Invalid credentials" ∧
    (login env db now u1 p1 d1 i1 a1 sid1 t1).1 =
      (login env db now u2 p2 d2 i2 a2 sid2 t2).1 := by
  have hb1 : ¬ ((jsTrim u1).length < 1) := by omega
  have hb1p : ¬ (p1.length < 1) := by omega
  have hb2 : ¬ ((jsTrim u2).length < 1) := by omega
  have hb2p : ¬ (p2.length < 1) := by omega
  refine ⟨?_, ?_, ?_⟩ <;>
    simp [login, h1, h2, hact, hpw, hb1, hb1p, hb2, hb2p]

/-- C4 witness. -/
theorem login_anti_enumeration_witness :
    (login ⟨30, 15⟩ ⟨[⟨1, "alice", bcryptHash "pw1234567890", true, none, none⟩], [], []⟩
        0 "bob" "xyzzy12345" none none none "S1" "T1").1 =
      .err 401 "Invalid credentials" ∧
    (login ⟨30, 15⟩ ⟨[⟨1, "alice", bcryptHash "pw1234567890", true, none, none⟩], [], []⟩
        0 "alice" "wrongpass9" none none none "S2" "T2").1 =
      .err 401 "Invalid credentials" := by
  have h := login_anti_enumeration ⟨30, 15⟩
    ⟨[⟨1, "alice", bcryptHash "pw1234567890", true, none, none⟩], [], []⟩
    0 "bob" "xyzzy12345" "alice" "wrongpass9" none none none none none none
    "S1" "T1" "S2" "T2" ⟨1, "alice", bcryptHash "pw1234567890", true, none, none⟩
    (by decide) (by decide) (by decide) (by decide)
    (by decide) (by decide) (by decide) (by decide)
  exact ⟨h.1, h.2.1⟩

/-- C9. The login handler checks `is_active` before comparing the password:
an existing inactive user receives `403` "Account is inactive" for every
supplied password, a response distinct from the unknown-user `401`. -/
theorem login_inactive_before_password
    (env : AuthEnv) (db : Db) (now : Nat) (username : String)
    (d i a : Option String) (sid t : String) (u : UserRow)
    (hv : 1 ≤ (jsTrim username).length)
    (hfind : db.users.find? (fun v => citextEq v.username (jsTrim username)) = some u)
    (hinact : u.is_active = false) :
    ∀ password : String, 1 ≤ password.length →
      (login env db now username password d i a sid t).1 = .err 403 "Account is inactive" ∧
      (login env db now username password d i a sid t).1 ≠ .err 401 "Invalid credentials" := by
  intro password hp
  have hb : ¬ ((jsTrim username).length < 1) := by omega
  have hbp : ¬ (password.length < 1) := by omega
  constructor
  · simp [login, hfind, hinact, hb, hbp]
  · simp [login, hfind, hinact, hb, hbp]

/-- C9 witness. -/
theorem login_inactive_before_password_witness :
    (login ⟨30, 15⟩ ⟨[⟨7, "carol", bcryptHash "correct-pw99", false, none, none⟩], [], []⟩
        0 "carol" "correct-pw99" none none none "S1" "T1").1 =
      .err 403 "Account is inactive" := by
  have h := login_inactive_before_password ⟨30, 15⟩
    ⟨[⟨7, "carol", bcryptHash "correct-pw99", false, none, none⟩], [], []⟩
    0 "carol" none none none "S1" "T1"
    ⟨7, "carol", bcryptHash "correct-pw99", false, none, none⟩
    (by decide) (by decide) (by decide) "correct-pw99" (by decide)
  exact h.1

/-- C3. Session revocation pre-empts token expiry: for a verified,
unexpired access token whose claims name a session row (ids unique as in
the schema), the middleware answers `401` "Session is no longer active"
whenever that row is revoked, expired, or its user inactive, and succeeds
exactly when the row is unrevoked, unexpired, and its user active. -/
theorem verify_revocation_preempts_expiry
    (db : Db) (now : Nat) (p : AccessToken) (s : SessionRow)
    (hs : s ∈ db.sessions)
    (hid : s.id = p.sid)
    (huid : s.user_id = p.sub)
    (hsid : p.sid ≠ "")
    (huniq : ∀ r ∈ db.sessions, r.id = s.id → r = s) :
    ((s.revoked_at ≠ none ∨ s.expires_at ≤ now ∨ userActive db s.user_id = false) →
      (requireAuth db now (.verified p)).1 = .err 401 "Session is no longer active") ∧
    ((requireAuth db now (.verified p)).1 = .authOk p.sub p.sid p.username ↔
      (s.revoked_at = none ∧ now < s.expires_at ∧ userActive db s.user_id = true)) := by
  have hlive : ∀ r ∈ db.sessions, sessionLive db now p r = true →
      r = s ∧ s.revoked_at = none ∧ now < s.expires_at ∧ userActive db s.user_id = true := by
    intro r hr hlr
    simp only [sessionLive, Bool.and_eq_true, beq_iff_eq, decide_eq_true_eq] at hlr
    obtain ⟨⟨⟨⟨hrid, hruid⟩, hrrev⟩, hrexp⟩, hract⟩ := hlr
    have hrs : r = s := huniq r hr (by rw [hrid, hid])
    subst hrs
    exact ⟨rfl, hrrev, hrexp, hract⟩
  constructor
  · intro hdead
    have hnone : db.sessions.find? (sessionLive db now p) = none := by
      rw [List.find?_eq_none]
      intro r hr
      intro hlr
      obtain ⟨hrs, hrev, hexp, hact⟩ := hlive r hr hlr
      rcases hdead with h | h | h
      · exact h hrev
      · omega
      · simp [h] at hact
    simp [requireAuth, hsid, hnone]
  · constructor
    · intro hok
      rcases hfind : db.sessions.find? (sessionLive db now p) with _ | r
      · simp [requireAuth, hsid, hfind] at hok
      · have hr := List.mem_of_find?_eq_some hfind
        have hlr := List.find?_some hfind
        exact (hlive r hr hlr).2
    · intro ⟨hrev, hexp, hact⟩
      have hsl : sessionLive db now p s = true := by
        simp [sessionLive, hid, hrev, hexp, ← huid, hact]
      have : (db.sessions.find? (sessionLive db now p)).isSome := by
        rw [List.find?_isSome]
        exact ⟨s, hs, hsl⟩
      rcases hfind : db.sessions.find? (sessionLive db now p) with _ | r
      · rw [hfind] at this; simp at this
      · simp [requireAuth, hsid, hfind]

/-- C3 witness: a session revoked at time 5 rejects a still-unexpired token
at time 6, and an unrevoked one is accepted. -/
theorem verify_revocation_preempts_expiry_witness :
    (requireAuth
        ⟨[⟨1, "alice", "h", true, none, none⟩],
         [⟨"S1", 1, "rh", 0, 100, some 5, some "logout", none, none, none⟩], []⟩
        6 (.verified ⟨1, "S1", "alice", 20⟩)).1 =
      .err 401 "Session is no longer active" := by
  have h := verify_revocation_preempts_expiry
    ⟨[⟨1, "alice", "h", true, none, none⟩],
     [⟨"S1", 1, "rh", 0, 100, some 5, some "logout", none, none, none⟩], []⟩
    6 ⟨1, "S1", "alice", 20⟩
    ⟨"S1", 1, "rh", 0, 100, some 5, some "logout", none, none, none⟩
    (by decide) (by decide) (by decide) (by decide) (by decide)
  exact h.1 (by simp)

/-- C8. Refresh frame condition: a successful refresh leaves `users` and the
activity log untouched and rewrites the session list only at the matched
row id, changing `refresh_token_hash` (to the new token's hash) and
`last_seen_at`; `expires_at`, `revoked_at`, `user_id` and the
device/IP/user-agent fields are unchanged on every row, so a refresh never
extends a session's expiry. -/
theorem refresh_frame_condition
    (env : AuthEnv) (db : Db) (now : Nat) (t t2 : String) (s : SessionRow)
    (hlen : 20 ≤ t.length)
    (hfirst : (db.sessions.filter (refreshLookupHit db now (hashToken t))).head? = some s) :
    (refresh env db now t t2).2.users = db.users ∧
    (refresh env db now t t2).2.activity = db.activity ∧
    (refresh env db now t t2).2.sessions = db.sessions.map (fun r =>
      if r.id == s.id then
        { r with refresh_token_hash := hashToken t2, last_seen_at := now }
      else r) ∧
    (refresh env db now t t2).2.sessions.map SessionRow.expires_at =
      db.sessions.map SessionRow.expires_at ∧
    (refresh env db now t t2).2.sessions.map SessionRow.revoked_at =
      db.sessions.map SessionRow.revoked_at ∧
    (refresh env db now t t2).2.sessions.map SessionRow.user_id =
      db.sessions.map SessionRow.user_id ∧
    (refresh env db now t t2).2.sessions.map SessionRow.ip_address =
      db.sessions.map SessionRow.ip_address ∧
    (refresh env db now t t2).2.sessions.map SessionRow.user_agent =
      db.sessions.map SessionRow.user_agent ∧
    (refresh env db now t t2).2.sessions.map SessionRow.device_fingerprint =
      db.sessions.map SessionRow.device_fingerprint := by
  have hb : ¬ (t.length < 20) := by omega
  have hsess : (refresh env db now t t2).2.sessions = db.sessions.map (fun r =>
      if r.id == s.id then
        { r with refresh_token_hash := hashToken t2, last_seen_at := now }
      else r) := by
    simp [refresh, hb, hfirst]
  refine ⟨by simp [refresh, hb, hfirst], by simp [refresh, hb, hfirst], hsess,
    ?_, ?_, ?_, ?_, ?_, ?_⟩ <;>
  · rw [hsess, List.map_map]
    apply List.map_congr_left
    intro r _
    by_cases h : r.id = s.id <;> simp [h]

/-- C8 witness. -/
theorem refresh_frame_condition_witness :
    (refresh ⟨30, 15⟩
        ⟨[⟨1, "alice", "h", true, none, none⟩],
         [⟨"S1", 1, hashToken "tok-0123456789abcdef", 0, 100, none, none, none, none, none⟩],
         []⟩
        5 "tok-0123456789abcdef" "tok2-0123456789abcde").2.sessions.map
        SessionRow.expires_at = [100] := by
  have h := refresh_frame_condition ⟨30, 15⟩
    ⟨[⟨1, "alice", "h", true, none, none⟩],
     [⟨"S1", 1, hashToken "tok-0123456789abcdef", 0, 100, none, none, none, none, none⟩],
     []⟩
    5 "tok-0123456789abcdef" "tok2-0123456789abcde"
    ⟨"S1", 1, hashToken "tok-0123456789abcdef", 0, 100, none, none, none, none, none⟩
    (by decide) (by decide)
  rw [h.2.2.2.1]
  decide

theorem hashToken_injective {a b : String} (h : hashToken a = hashToken b) : a = b := by
  unfold hashToken at h
  have hd := congrArg String.data h
  simp only [String.data_append] at hd
  have h2 := List.append_cancel_left hd
  exact congrArg String.mk h2

/-- If some member satisfies `p` and every member satisfying `p` equals `s`,
the first `p`-satisfying element is `s` (`rows[0]` of the SQL lookup). -/
theorem head_filter_all_eq {α : Type} (l : List α) (p : α → Bool) (s : α)
    (hs : s ∈ l) (hps : p s = true) (hall : ∀ r ∈ l, p r = true → r = s) :
    (l.filter p).head? = some s := by
  have hmem : s ∈ l.filter p := List.mem_filter.mpr ⟨hs, hps⟩
  cases hf : l.filter p with
  | nil => rw [hf] at hmem; simp at hmem
  | cons r rest =>
    have hrmem : r ∈ l.filter p := by rw [hf]; exact List.mem_cons_self r rest
    have hr := List.mem_filter.mp hrmem
    have hrs : r = s := hall r hr.1 hr.2
    rw [hrs]
    rfl

/-- When no session row carries the presented token's hash, refresh answers
`401` regardless of every other condition. -/
theorem refresh_fails_without_hash_match
    (env : AuthEnv) (d : Db) (n2 : Nat) (t t3 : String)
    (hlen : 20 ≤ t.length)
    (hno : ∀ r ∈ d.sessions, r.refresh_token_hash ≠ hashToken t) :
    (refresh env d n2 t t3).1 = .err 401 "Refresh token is invalid or expired" := by
  have hb : ¬ (t.length < 20) := by omega
  have hemp : d.sessions.filter (refreshLookupHit d n2 (hashToken t)) = [] := by
    rw [List.filter_eq_nil_iff]
    intro r hr hhit
    simp only [refreshLookupHit, Bool.and_eq_true, beq_iff_eq] at hhit
    exact hno r hr hhit.1.1.1
  simp [refresh, hb, hemp]

/-- C2. Refresh rotation is single-use: presenting `t` against the one
session holding `hash t` succeeds and atomically replaces the stored hash
with `hash t2`; the session row survives unrevoked with its expiry
unchanged, yet a second refresh presenting `t` (at any later time) answers
`401` "Refresh token is invalid or expired". -/
theorem refresh_rotation_single_use
    (env : AuthEnv) (db : Db) (now now2 : Nat) (t t2 t3 : String) (s : SessionRow)
    (hlen : 20 ≤ t.length)
    (hs : s ∈ db.sessions)
    (hhash : s.refresh_token_hash = hashToken t)
    (hrev : s.revoked_at = none)
    (hexp : now < s.expires_at)
    (hact : userActive db s.user_id = true)
    (huniq : ∀ r ∈ db.sessions, r.refresh_token_hash = hashToken t → r = s)
    (hne : t2 ≠ t) :
    (∃ tok, (refresh env db now t t2).1 = .refreshOk tok t2) ∧
    ({ s with refresh_token_hash := hashToken t2, last_seen_at := now } ∈
        (refresh env db now t t2).2.sessions) ∧
    ({ s with refresh_token_hash := hashToken t2, last_seen_at := now } :
        SessionRow).revoked_at = none ∧
    ({ s with refresh_token_hash := hashToken t2, last_seen_at := now } :
        SessionRow).expires_at = s.expires_at ∧
    (refresh env (refresh env db now t t2).2 now2 t t3).1 =
      .err 401 "Refresh token is invalid or expired" := by
  have hb : ¬ (t.length < 20) := by omega
  have hhit : refreshLookupHit db now (hashToken t) s = true := by
    simp [refreshLookupHit, hhash, hrev, hexp, hact]
  have hall : ∀ r ∈ db.sessions, refreshLookupHit db now (hashToken t) r = true → r = s := by
    intro r hr h
    simp only [refreshLookupHit, Bool.and_eq_true, beq_iff_eq] at h
    exact huniq r hr h.1.1.1
  have hfirst : (db.sessions.filter (refreshLookupHit db now (hashToken t))).head? = some s :=
    head_filter_all_eq _ _ _ hs hhit hall
  have hdb1 : (refresh env db now t t2).2 =
      { db with sessions := db.sessions.map (fun r =>
          if r.id == s.id then
            { r with refresh_token_hash := hashToken t2, last_seen_at := now }
          else r) } := by
    simp [refresh, hb, hfirst]
  have hne2 : hashToken t2 ≠ hashToken t := fun h => hne (hashToken_injective h)
  have hresp : (refresh env db now t t2).1 =
      .refreshOk
        { sub := s.user_id
          sid := s.id
          username := (match db.users.find? (fun u => u.id == s.user_id) with
            | some u => u.username
            | none => "")
          exp := now + env.accessTtl } t2 := by
    simp [refresh, hb, hfirst]
  refine ⟨⟨_, hresp⟩, ?_, hrev, rfl, ?_⟩
  · rw [hdb1]
    have : ({ s with refresh_token_hash := hashToken t2, last_seen_at := now } :
        SessionRow) =
        (fun r => if r.id == s.id then
          ({ r with refresh_token_hash := hashToken t2, last_seen_at := now } : SessionRow)
        else r) s := by simp
    rw [this]
    exact List.mem_map_of_mem _ hs
  · apply refresh_fails_without_hash_match env _ now2 t t3 hlen
    intro r1 hr1
    rw [hdb1] at hr1
    simp only [List.mem_map] at hr1
    obtain ⟨r, hr, hupd⟩ := hr1
    intro hh1
    by_cases hid : r.id == s.id
    · rw [if_pos hid] at hupd
      rw [← hupd] at hh1
      exact hne2 hh1
    · rw [if_neg hid] at hupd
      rw [← hupd] at hh1
      have : r = s := huniq r hr hh1
      rw [this] at hid
      simp at hid

/-- C2 witness. -/
theorem refresh_rotation_single_use_witness :
    (refresh ⟨30, 15⟩
      (refresh ⟨30, 15⟩
        ⟨[⟨1, "alice", "h", true, none, none⟩],
          [⟨"S1", 1, hashToken "tok-0123456789abcdef", 0, 100, none, none, none, none, none⟩],
          []⟩
        5 "tok-0123456789abcdef" "tok2-0123456789abcde").2
      6 "tok-0123456789abcdef" "tok3-0123456789abcd").1 =
      .err 401 "Refresh token is invalid or expired" := by
  have h := refresh_rotation_single_use ⟨30, 15⟩
    ⟨[⟨1, "alice", "h", true, none, none⟩],
      [⟨"S1", 1, hashToken "tok-0123456789abcdef", 0, 100, none, none, none, none, none⟩],
      []⟩
    5 6 "tok-0123456789abcdef" "tok2-0123456789abcde" "tok3-0123456789abcd"
    ⟨"S1", 1, hashToken "tok-0123456789abcdef", 0, 100, none, none, none, none, none⟩
    (by decide) (by decide) (by decide) (by decide) (by decide) (by decide)
    (by decide) (by decide)
  exact h.2.2.2.2

/-- C1. One active session per user: a successful login revokes every
previously unrevoked session row of the user with reason
`replaced_by_new_login` in the same state transition that inserts the new
row; afterwards the new row is the user's only unrevoked session, and the
predicate enforced by the partial unique index
`ux_user_sessions_one_active_per_user` is preserved. -/
theorem login_one_active_session_per_user
    (env : AuthEnv) (db : Db) (now : Nat) (username password : String)
    (d i a : Option String) (sid t : String) (u : UserRow)
    (hv : 1 ≤ (jsTrim username).length) (hvp : 1 ≤ password.length)
    (hfind : db.users.find? (fun v => citextEq v.username (jsTrim username)) = some u)
    (hact : u.is_active = true)
    (hpw : bcryptCompare password u.password_hash = true)
    (hinv : uxOneActivePerUser db.sessions) :
    (∀ r ∈ db.sessions, r.user_id = u.id → r.revoked_at = none →
      ({ r with revoked_at := some now,
                revoked_reason := some "replaced_by_new_login" } : SessionRow) ∈
        (login env db now username password d i a sid t).2.sessions) ∧
    (∃ rn ∈ (login env db now username password d i a sid t).2.sessions,
      rn.id = sid ∧ rn.user_id = u.id ∧ rn.revoked_at = none) ∧
    (∀ r ∈ (login env db now username password d i a sid t).2.sessions,
      r.user_id = u.id → r.revoked_at = none → r.id = sid) ∧
    uxOneActivePerUser (login env db now username password d i a sid t).2.sessions := by
  have hb : ¬ ((jsTrim username).length < 1) := by omega
  have hbp : ¬ (password.length < 1) := by omega
  have hsess : (login env db now username password d i a sid t).2.sessions =
      db.sessions.map (revokeForLogin now u.id) ++
      [{ id := sid
         user_id := u.id
         refresh_token_hash := hashToken t
         last_seen_at := now
         expires_at := now + env.refreshTtl
         ip_address := i
         user_agent := a
         device_fingerprint := d }] := by
    simp [login, hb, hbp, hfind, hact, hpw, logUserActivity]
  have hf : ∀ x : SessionRow, (revokeForLogin now u.id x).revoked_at = none →
      revokeForLogin now u.id x = x ∧ x.revoked_at = none ∧ x.user_id ≠ u.id := by
    intro x hx
    unfold revokeForLogin at hx ⊢
    by_cases hc : (x.user_id == u.id && x.revoked_at == none) = true
    · rw [if_pos hc] at hx
      simp at hx
    · rw [if_neg hc] at hx ⊢
      refine ⟨rfl, hx, ?_⟩
      simp only [Bool.and_eq_true, beq_iff_eq, not_and] at hc
      intro hu
      have hcc := hc hu
      rw [hx] at hcc
      simp at hcc
  rw [hsess]
  refine ⟨?_, ?_, ?_, ?_⟩
  · intro r hr hu hrev
    apply List.mem_append_left
    have heq : ({ r with revoked_at := some now, revoked_reason := some "replaced_by_new_login" } : SessionRow) = revokeForLogin now u.id r := by
      unfold revokeForLogin
      rw [if_pos]
      simp [hu, hrev]
    rw [heq]
    exact List.mem_map_of_mem _ hr
  · exact ⟨{ id := sid
             user_id := u.id
             refresh_token_hash := hashToken t
             last_seen_at := now
             expires_at := now + env.refreshTtl
             ip_address := i
             user_agent := a
             device_fingerprint := d },
      List.mem_append_right _ (List.mem_singleton_self _), rfl, rfl, rfl⟩
  · intro r hmem hu hrv
    rcases List.mem_append.mp hmem with hl | hr
    · obtain ⟨r0, _, hfr⟩ := List.mem_map.mp hl
      have hx := hf r0 (by rw [hfr]; exact hrv)
      have hrr : r = r0 := hfr.symm.trans hx.1
      rw [hrr] at hu
      exact absurd hu hx.2.2
    · rw [List.mem_singleton.mp hr]
  · rw [uxOneActivePerUser, List.pairwise_append]
    refine ⟨?_, List.pairwise_singleton _ _, ?_⟩
    · rw [List.pairwise_map]
      refine hinv.imp ?_
      intro x y hR hfx hfy
      have ha := hf x hfx
      have hb2 := hf y hfy
      rw [ha.1, hb2.1]
      exact hR ha.2.1 hb2.2.1
    · intro x hx y hy hxrev hyrev
      obtain ⟨x0, _, hfx⟩ := List.mem_map.mp hx
      have hx0 := hf x0 (by rw [hfx]; exact hxrev)
      have hxx : x = x0 := hfx.symm.trans hx0.1
      rw [List.mem_singleton.mp hy, hxx]
      exact hx0.2.2

/-- C1 witness: logging in over an existing active session revokes it with
reason `replaced_by_new_login`, and the unique-index predicate still holds. -/
theorem login_one_active_session_per_user_witness :
    ((⟨"S0", 1, "oldhash", 0, 100, some 5, some "replaced_by_new_login",
        none, none, none⟩ : SessionRow) ∈
      (login ⟨30, 15⟩
        ⟨[⟨1, "alice", bcryptHash "pw1234567890", true, none, none⟩],
         [⟨"S0", 1, "oldhash", 0, 100, none, none, none, none, none⟩], []⟩
        5 "alice" "pw1234567890" none none none "S1" "T1").2.sessions) ∧
    uxOneActivePerUser
      (login ⟨30, 15⟩
        ⟨[⟨1, "alice", bcryptHash "pw1234567890", true, none, none⟩],
         [⟨"S0", 1, "oldhash", 0, 100, none, none, none, none, none⟩], []⟩
        5 "alice" "pw1234567890" none none none "S1" "T1").2.sessions := by
  have h := login_one_active_session_per_user ⟨30, 15⟩
    ⟨[⟨1, "alice", bcryptHash "pw1234567890", true, none, none⟩],
     [⟨"S0", 1, "oldhash", 0, 100, none, none, none, none, none⟩], []⟩
    5 "alice" "pw1234567890" none none none "S1" "T1"
    ⟨1, "alice", bcryptHash "pw1234567890", true, none, none⟩
    (by decide) (by decide) (by decide) (by decide) (by decide)
    (List.pairwise_singleton _ _)
  exact ⟨h.1 _ (List.mem_singleton_self _) rfl rfl, h.2.2.2⟩

/-- C10. Parcel-key lookup is case-insensitive: two keys with the same
`UPPER` image (casing variants) select the same parcel row, and the route's
response is a function of that row. -/
theorem by_parcel_key_case_insensitive
    (ps : List Parcel) (k k' : String) (h : sqlUpper k = sqlUpper k') :
    byParcelKeyLookup ps k = byParcelKeyLookup ps k' := by
  unfold byParcelKeyLookup
  simp only [h]

/-- C10 witness. -/
theorem by_parcel_key_case_insensitive_witness :
    sqlUpper "Ab-12c" = sqlUpper "aB-12C" ∧
    byParcelKeyLookup
        [⟨"AB-12C", none, none, none, none, none, none, ⟨0, 0⟩⟩] "Ab-12c" =
      byParcelKeyLookup
        [⟨"AB-12C", none, none, none, none, none, none, ⟨0, 0⟩⟩] "aB-12C" :=
  ⟨by decide,
    by_parcel_key_case_insensitive
      [⟨"AB-12C", none, none, none, none, none, none, ⟨0, 0⟩⟩]
      "Ab-12c" "aB-12C" (by decide)⟩

end EmpowerGIS
